import Mathlib

/-! The `step crypto kdf` subcommands (hash and compare actions) and the
`step crypto jwt sign` action.

A shallow embedding of `command/crypto/kdf/kdf.go` (namespace `Kdf`) and of `signAction`
of `command/crypto/jwt/sign.go` (namespace `Jwt`).

* Go byte slices and Go strings are both finite byte sequences; the conversions
  `[]byte(s)` and `string(b)` are the identity on them.
* A Go `error` is `Option Error` (`none` is `nil`); a Go `(T, error)` result of a
  collaborator is `Except Error T`.
* Everything `kdf.go` calls but does not define (the PHC codec of the same package,
  the scrypt and bcrypt libraries, the secret reader, the random salt) is a field of
  `Env`.  Every call of such a collaborator and every line printed on standard output
  is appended to an explicit trace, which the actions thread through.
-/

namespace Kdf

/-! ## Data model -/

/-- A Go `byte`. -/
abbrev Byte := Fin 256

/-- A Go `[]byte`. -/
abbrev Bytes := List Byte

/-- A Go `string`: an immutable byte sequence. -/
abbrev GoString := List Byte

/-- A Go string literal: the UTF-8 bytes of its text. -/
def lit (s : String) : GoString := s.toUTF8.data.toList.map (fun b => b.val)

/-- The Go conversion `[]byte(s)`. -/
def toBytes (s : GoString) : Bytes := s

/-- The Go conversion `string(b)`. -/
def toGoString (b : Bytes) : GoString := b

/-- Non-nil Go error values that `kdf.go` builds or passes on.  The constructors named
after `errs.*` stand for the values those helpers of the `errs` package return (their
`ctx` argument only feeds the message text and is left out). -/
inductive Error where
  /-- Value of `errors.New(msg)`; also any error produced inside a collaborator. -/
  | New (msg : String)
  /-- Value of `errors.Errorf(format, arg)` with one `%s` argument. -/
  | Errorf (format : String) (arg : GoString)
  /-- Value of `errors.Wrap(cause, msg)` for a non-nil `cause`. -/
  | Wrap (cause : Error) (msg : String)
  /-- Value of `errs.InvalidFlagValue(ctx, flag, value, options)`. -/
  | InvalidFlagValue (flag : String) (value : GoString) (options : String)
  /-- Value of `errs.InsecureArgument(ctx, name)`. -/
  | InsecureArgument (name : String)
  /-- Value of `errs.MissingArguments(ctx, name)`. -/
  | MissingArguments (name : String)
  /-- Value of `errs.TooManyArguments(ctx)`. -/
  | TooManyArguments
  deriving DecidableEq, Repr

deriving instance DecidableEq for Except

/-- The fields of the `scryptParams` struct that `kdf.go` reads: `p.N`, `p.r`, `p.p`
and `p.kl`. -/
structure ScryptParams where
  N : Int
  r : Int
  p : Int
  kl : Int
  deriving DecidableEq, Repr

/-- What a `*cli.Context` offers to the two actions: `ctx.String("alg")`,
`ctx.Bool("insecure")` and the positional arguments `ctx.Args()`. -/
structure Context where
  alg : GoString
  insecure : Bool
  args : List GoString
  deriving DecidableEq, Repr

/-- Go `ctx.NArg()`. -/
def Context.NArg (ctx : Context) : Nat := ctx.args.length

/-- Go `ctx.Args().Get(n)` and `args[n]` for an index the caller has checked. -/
def Context.Get (ctx : Context) (n : Nat) : GoString := ctx.args.getD n []

/-- One observable step of an action: a call of a collaborator with its arguments, or
a line written to standard output. -/
inductive Event where
  | ReadInput (prompt : String)
  | phcGetSalt (size : Int)
  | scryptKey (password salt : Bytes) (N r p keyLen : Int)
  | bcryptGenerateFromPassword (password : Bytes) (cost : Int)
  | bcryptCompareHashAndPassword (hashedPassword password : Bytes)
  | phcDecode (s : GoString)
  | Println (line : GoString)
  deriving DecidableEq, Repr

/-- The sequence of events so far, oldest first. -/
abbrev Trace := List Event

/-- The collaborators of `kdf.go`.  `phcEncode`, `phcDecode`, `phcGetSalt`,
`newScryptParams`, `getParams`, the table `scryptParams` and the ids `bcryptHash`,
`scryptHash` belong to the same Go package but are defined outside `kdf.go`;
`scrypt.Key`, `bcrypt.GenerateFromPassword`, `bcrypt.CompareHashAndPassword` are
library functions; `utils.ReadInput` reads the secret from the terminal or STDIN. -/
structure Env where
  /-- Result of `utils.ReadInput(prompt)`. -/
  readInput : String → Except Error Bytes
  /-- Result of `phcGetSalt(size)`: the random salt drawn in this run. -/
  phcGetSalt : Int → Except Error Bytes
  /-- Result of `scrypt.Key(password, salt, N, r, p, keyLen)`. -/
  scryptKey : Bytes → Bytes → Int → Int → Int → Int → Except Error Bytes
  /-- Result of `bcrypt.GenerateFromPassword(password, cost)` in this run. -/
  bcryptGenerateFromPassword : Bytes → Int → Except Error Bytes
  /-- Result of `bcrypt.CompareHashAndPassword(hashedPassword, password)`;
  `none` is `nil`. -/
  bcryptCompareHashAndPassword : Bytes → Bytes → Option Error
  /-- Result of `phcEncode(id, params, salt, hash)`. -/
  phcEncode : GoString → GoString → Bytes → Bytes → GoString
  /-- Result of `phcDecode(s)`: `(id, params, salt, hash)` or an error. -/
  phcDecode : GoString → Except Error (GoString × GoString × Bytes × Bytes)
  /-- Result of `newScryptParams(params)`. -/
  newScryptParams : GoString → Except Error ScryptParams
  /-- Result of the method `p.getParams()`. -/
  getParams : ScryptParams → GoString
  /-- The table entry `scryptParams[scryptHash32768]`. -/
  scryptParams32768 : ScryptParams
  /-- The id `bcryptHash`. -/
  bcryptHash : GoString
  /-- The id `scryptHash`. -/
  scryptHash : GoString

/-! ## Library constants and functions with a fixed definition -/

/-- The constant `bcrypt.DefaultCost` of `golang.org/x/crypto/bcrypt`; the command
description states the same value ("The bcrypt work factor is currently fixed at 10"). -/
def bcrypt.DefaultCost : Int := 10

/-- Go `subtle.ConstantTimeByteEq(x, y)`:
`int((uint32(x^y) - 1) >> 31)`. -/
def subtle.ConstantTimeByteEq (x y : Nat) : Int :=
  Int.ofNat ((((x ^^^ y) % 2 ^ 32 + 2 ^ 32 - 1) % 2 ^ 32) >>> 31)

/-- The loop of `subtle.ConstantTimeCompare`: `v |= x[i] ^ y[i]` for every index,
`v` being a `byte`. -/
def subtle.orXor : Bytes → Bytes → Nat → Nat
  | x :: xs, y :: ys, v => subtle.orXor xs ys ((v ||| (x.val ^^^ y.val)) % 256)
  | _, _, v => v

/-- Go `subtle.ConstantTimeCompare(x, y)`: 0 at once when the lengths differ, else the
whole of both slices is folded and the result is 1 exactly when the fold is 0. -/
def subtle.ConstantTimeCompare (x y : Bytes) : Int :=
  if x.length ≠ y.length then 0
  else subtle.ConstantTimeByteEq (subtle.orXor x y 0) 0

/-! ## Calls of collaborators, recorded in the trace -/

/-- Call `utils.ReadInput(prompt)`. -/
def utils.ReadInput (env : Env) (prompt : String) (w : Trace) :
    Except Error Bytes × Trace :=
  (env.readInput prompt, w ++ [Event.ReadInput prompt])

/-- Call `phcGetSalt(size)`. -/
def phcGetSalt (env : Env) (size : Int) (w : Trace) : Except Error Bytes × Trace :=
  (env.phcGetSalt size, w ++ [Event.phcGetSalt size])

/-- Call `scrypt.Key(password, salt, N, r, p, keyLen)`. -/
def scrypt.Key (env : Env) (password salt : Bytes) (N r p keyLen : Int) (w : Trace) :
    Except Error Bytes × Trace :=
  (env.scryptKey password salt N r p keyLen,
    w ++ [Event.scryptKey password salt N r p keyLen])

/-- Call `bcrypt.GenerateFromPassword(password, cost)`. -/
def bcrypt.GenerateFromPassword (env : Env) (password : Bytes) (cost : Int) (w : Trace) :
    Except Error Bytes × Trace :=
  (env.bcryptGenerateFromPassword password cost,
    w ++ [Event.bcryptGenerateFromPassword password cost])

/-- Call `bcrypt.CompareHashAndPassword(hashedPassword, password)`. -/
def bcrypt.CompareHashAndPassword (env : Env) (hashedPassword password : Bytes)
    (w : Trace) : Option Error × Trace :=
  (env.bcryptCompareHashAndPassword hashedPassword password,
    w ++ [Event.bcryptCompareHashAndPassword hashedPassword password])

/-- Call `phcDecode(s)`. -/
def phcDecode (env : Env) (s : GoString) (w : Trace) :
    Except Error (GoString × GoString × Bytes × Bytes) × Trace :=
  (env.phcDecode s, w ++ [Event.phcDecode s])

/-- Call `fmt.Println(s)`: one line on standard output. -/
def fmt.Println (s : GoString) (w : Trace) : Trace := w ++ [Event.Println s]

/-! ## The hash operation -/

/-- Go `doScrypt(password)`: the returned `(string, error)` pair and the trace. -/
def doScrypt (env : Env) (password : Bytes) (w : Trace) :
    (GoString × Option Error) × Trace :=
  match phcGetSalt env 16 w with
  | (.error err, w1) => ((lit "", some (Error.Wrap err "error creating salt")), w1)
  | (.ok salt, w1) =>
    let p := env.scryptParams32768
    match scrypt.Key env password salt p.N p.r p.p p.kl w1 with
    | (.error err, w2) => ((lit "", some (Error.Wrap err "error deriving password")), w2)
    | (.ok hash, w2) => ((env.phcEncode (lit "scrypt") (env.getParams p) salt hash, none), w2)

/-- Go `doBcrypt(password)`: the returned `(string, error)` pair and the trace. -/
def doBcrypt (env : Env) (password : Bytes) (w : Trace) :
    (GoString × Option Error) × Trace :=
  match bcrypt.GenerateFromPassword env password bcrypt.DefaultCost w with
  | (.error err, w1) => ((lit "", some (Error.Wrap err "error deriving password")), w1)
  | (.ok hash, w1) => ((toGoString hash, none), w1)

/-- Go `hashAction(ctx)`: the returned error and the trace. -/
def hashAction (env : Env) (ctx : Context) (w : Trace) : Option Error × Trace :=
  -- Get kdf method
  let kdf? : Option (Bytes → Trace → (GoString × Option Error) × Trace) :=
    if ctx.alg = lit "scrypt" then some (doScrypt env)
    else if ctx.alg = lit "bcrypt" then some (doBcrypt env)
    else none
  match kdf? with
  | none => (some (Error.InvalidFlagValue "alg" ctx.alg ""), w)
  | some kdf =>
    -- Grab input from terminal or arguments
    let input? : (Error ⊕ Bytes) × Trace :=
      match ctx.NArg with
      | 0 =>
        match utils.ReadInput env "Enter password to hash: " w with
        | (.error err, w1) => (.inl err, w1)
        | (.ok input, w1) => (.inr input, w1)
      | 1 =>
        if !ctx.insecure then (.inl (Error.InsecureArgument "INPUT"), w)
        else (.inr (toBytes (ctx.Get 0)), w)
      | _ => (.inl Error.TooManyArguments, w)
    match input? with
    | (.inl err, w1) => (some err, w1)
    | (.inr input, w1) =>
      -- Hash input
      match kdf input w1 with
      | ((_, some err), w2) => (some err, w2)
      | ((hash, none), w2) => (none, fmt.Println hash w2)

/-! ## The compare operation -/

/-- Go `compareAction(ctx)`: the returned error and the trace. -/
def compareAction (env : Env) (ctx : Context) (w : Trace) : Option Error × Trace :=
  let args? : (Error ⊕ (GoString × Bytes)) × Trace :=
    match ctx.NArg with
    | 0 => (.inl (Error.MissingArguments "PHC_HASH"), w)
    | 1 =>
      match utils.ReadInput env "Enter password to compare: " w with
      | (.error err, w1) => (.inl err, w1)
      | (.ok input, w1) => (.inr (ctx.Get 0, input), w1)
    | 2 =>
      if !ctx.insecure then (.inl (Error.InsecureArgument "INPUT"), w)
      else (.inr (ctx.Get 0, toBytes (ctx.Get 1)), w)
    | _ => (.inl Error.TooManyArguments, w)
  match args? with
  | (.inl err, w1) => (some err, w1)
  | (.inr (hashStr, input), w1) =>
    match phcDecode env hashStr w1 with
    | (.error err, w2) => (some (Error.Wrap err "error decoding hash"), w2)
    | (.ok (id, params, salt, hash), w2) =>
      let valid? : (Error ⊕ Bool) × Trace :=
        if id = env.bcryptHash then
          match bcrypt.CompareHashAndPassword env hash input w2 with
          | (r, w3) => (.inr (r == none), w3)
        else if id = env.scryptHash then
          match env.newScryptParams params with
          | .error err => (.inl err, w2)
          | .ok p =>
            match scrypt.Key env input salt p.N p.r p.p (hash.length : Int) w2 with
            | (.error err, w3) => (.inl (Error.Wrap err "error deriving input"), w3)
            | (.ok hashedPass, w3) =>
              (.inr (subtle.ConstantTimeCompare hash hashedPass == 1), w3)
        else
          (.inl (Error.Errorf "invalid or unsupported hash method with id '%s'" id), w2)
      match valid? with
      | (.inl err, w3) => (some err, w3)
      | (.inr valid, w3) =>
        if valid then (none, fmt.Println (lit "ok") w3)
        else (some (Error.New "fail"), w3)

/-! ## A sample environment

A small, fully computable instance of `Env`, used to evaluate the actions on concrete
inputs.  Its codec writes `$id$params$salt$key` with every salt and key byte spelled as
two letters; its derivation functions are toy stand-ins that are deterministic and return
the requested number of bytes. -/

namespace Sample

/-- Two letters for one byte. -/
def encByte (b : Byte) : List Byte := [Fin.ofNat (97 + b.val / 16), Fin.ofNat (97 + b.val % 16)]

/-- Text form of a byte sequence. -/
def enc (bs : Bytes) : GoString := bs.flatMap encByte

/-- Inverse of `enc`; `none` on text that `enc` cannot have written. -/
def dec : GoString → Option Bytes
  | [] => some []
  | [_] => none
  | hi :: lo :: rest =>
    if 97 ≤ hi.val ∧ hi.val < 113 ∧ 97 ≤ lo.val ∧ lo.val < 113 then
      (dec rest).map (fun bs => Fin.ofNat ((hi.val - 97) * 16 + (lo.val - 97)) :: bs)
    else none

/-- Fields of a string separated by `$` (byte 36). -/
def split : GoString → List GoString
  | [] => [[]]
  | c :: cs =>
    if c = 36 then [] :: split cs
    else
      match split cs with
      | [] => [[c]]
      | f :: fs => (c :: f) :: fs

/-- A deterministic toy derivation: `n` bytes that depend on the secret, the salt and
the cost. -/
def stretch (password salt : Bytes) (cost : Int) (n : Nat) : Bytes :=
  let seed := (password ++ 0 :: salt).foldl (fun a b => (a * 31 + b.val) % 65521) 7
  (List.range n).map (fun i => Fin.ofNat (seed * (i + 3) + i + cost.toNat))

/-- The one parameter set the sample codec knows. -/
def entry : ScryptParams := { N := 32768, r := 8, p := 1, kl := 32 }

/-- The sample id of bcrypt hashes. -/
def bcryptId : GoString := lit "2a"

/-- The sample id of scrypt hashes. -/
def scryptId : GoString := lit "scrypt"

/-- Sample encoder. -/
def phcEncode (id params : GoString) (salt hash : Bytes) : GoString :=
  36 :: id ++ 36 :: params ++ 36 :: enc salt ++ 36 :: enc hash

/-- Sample decoder: a bcrypt string is handed on whole, any other string must have the
four fields of `phcEncode`. -/
def phcDecode (s : GoString) : Except Error (GoString × GoString × Bytes × Bytes) :=
  match split s with
  | [[], id, _, _] =>
    if id = bcryptId then .ok (bcryptId, [], [], toBytes s)
    else .error (Error.New "cannot decode password hash")
  | [[], id, params, salt, hash] =>
    match dec salt, dec hash with
    | some sa, some ha => .ok (id, params, sa, ha)
    | _, _ => .error (Error.New "cannot decode password hash")
  | _ => .error (Error.New "cannot decode password hash")

/-- Sample bcrypt output for a password. -/
def bcryptString (password : Bytes) (cost : Int) : Bytes :=
  lit "$2a$10$" ++ enc (stretch password [] cost 8)

/-- The sample environment. -/
def env : Env where
  readInput := fun _ => .ok (lit "hunter2")
  phcGetSalt := fun n =>
    if n < 0 then .error (Error.New "negative salt size")
    else .ok ((List.range n.toNat).map (fun i => Fin.ofNat (i * 37 + 11)))
  scryptKey := fun password salt N r p keyLen =>
    if N ≤ 1 ∨ r ≤ 0 ∨ p ≤ 0 ∨ keyLen < 0 then .error (Error.New "scrypt: bad parameters")
    else .ok (stretch password salt (N + r + p) keyLen.toNat)
  bcryptGenerateFromPassword := fun password cost =>
    if cost ≠ 10 then .error (Error.New "bcrypt: unsupported cost")
    else .ok (bcryptString password cost)
  bcryptCompareHashAndPassword := fun hashedPassword password =>
    if hashedPassword = bcryptString password 10 then none
    else some (Error.New "crypto/bcrypt: hashedPassword is not the hash of the given password")
  phcEncode := phcEncode
  phcDecode := phcDecode
  newScryptParams := fun params =>
    if params = lit "N=32768,r=8,p=1" then .ok { N := 32768, r := 8, p := 1, kl := 0 }
    else .error (Error.New "error parsing scrypt parameters")
  getParams := fun p => if p = entry then lit "N=32768,r=8,p=1" else lit ""
  scryptParams32768 := entry
  bcryptHash := bcryptId
  scryptHash := scryptId

/-- A sample environment whose derivation functions always fail. -/
def failing : Env :=
  { env with
    scryptKey := fun _ _ _ _ _ _ => .error (Error.New "scrypt: out of memory")
    bcryptGenerateFromPassword := fun _ _ => .error (Error.New "bcrypt: no entropy") }

end Sample

/-! ## Vocabulary of the statements -/

/-- The arguments stage of `compareAction` hands `hashStr` and `input` on to the
decoding stage: one argument and a secret read by `utils.ReadInput`, or two arguments
under the insecure flag. -/
def Supplies (env : Env) (ctx : Context) (hashStr : GoString) (input : Bytes) : Prop :=
  (ctx.args = [hashStr] ∧ env.readInput "Enter password to compare: " = .ok input) ∨
  (∃ a, ctx.args = [hashStr, a] ∧ ctx.insecure = true ∧ toBytes a = input)

/-- The events of the arguments stage of `compareAction`: the secret is read exactly
when there is one argument. -/
def readTrace (ctx : Context) : Trace :=
  if ctx.NArg = 1 then [Event.ReadInput "Enter password to compare: "] else []

/-- The arguments stage of `hashAction` hands `input` on to the derivation: no argument
and a secret read by `utils.ReadInput`, or one argument under the insecure flag. -/
def SuppliesHash (env : Env) (ctx : Context) (input : Bytes) : Prop :=
  (ctx.args = [] ∧ env.readInput "Enter password to hash: " = .ok input) ∨
  (∃ a, ctx.args = [a] ∧ ctx.insecure = true ∧ toBytes a = input)

/-- The events of the arguments stage of `hashAction`. -/
def readTraceHash (ctx : Context) : Trace :=
  if ctx.NArg = 0 then [Event.ReadInput "Enter password to hash: "] else []

/-- The secret an event hands to a derivation or verification primitive, if any. -/
def Event.secret : Event → Option Bytes
  | .scryptKey password _ _ _ _ _ => some password
  | .bcryptGenerateFromPassword password _ => some password
  | .bcryptCompareHashAndPassword _ password => some password
  | _ => none

/-- The event is a call of a derivation primitive (`scrypt.Key` or
`bcrypt.GenerateFromPassword`). -/
def Event.isDerivation : Event → Bool
  | .scryptKey _ _ _ _ _ _ => true
  | .bcryptGenerateFromPassword _ _ => true
  | _ => false

/-- The event is a line on standard output. -/
def Event.isPrint : Event → Bool
  | .Println _ => true
  | _ => false

/-- Modelled from the spec: the Hash Codec and the parameter parser (`phcEncode`,
`phcDecode`, `getParams`, `newScryptParams` and the ids `scryptHash`, `bcryptHash`, all
defined outside `kdf.go`), at every hash `doScrypt` can build for `password`.  The id
`doScrypt` writes is the registered scrypt id and is not the bcrypt id; the round-trip
law `decode(encode(h)) == h` holds; the parameters consumed by derivation are read back
as written. -/
def ScryptCodec (env : Env) (password : Bytes) : Prop :=
  env.scryptHash = lit "scrypt" ∧ env.bcryptHash ≠ env.scryptHash ∧
  ∀ salt hash, env.phcGetSalt 16 = .ok salt →
    env.scryptKey password salt env.scryptParams32768.N env.scryptParams32768.r
        env.scryptParams32768.p env.scryptParams32768.kl = .ok hash →
      env.phcDecode
          (env.phcEncode (lit "scrypt") (env.getParams env.scryptParams32768) salt hash) =
        .ok (lit "scrypt", env.getParams env.scryptParams32768, salt, hash) ∧
      ∃ q, env.newScryptParams (env.getParams env.scryptParams32768) = .ok q ∧
        q.N = env.scryptParams32768.N ∧ q.r = env.scryptParams32768.r ∧
        q.p = env.scryptParams32768.p

/-- Modelled from the spec: the memory-hard derivation (`scrypt.Key`, a library function)
returns a key of the requested length ("default 32 bytes for hashing"), at every key
`doScrypt` can derive for `password`. -/
def ScryptKeyLength (env : Env) (password : Bytes) : Prop :=
  ∀ salt hash, env.phcGetSalt 16 = .ok salt →
    env.scryptKey password salt env.scryptParams32768.N env.scryptParams32768.r
        env.scryptParams32768.p env.scryptParams32768.kl = .ok hash →
      (hash.length : Int) = env.scryptParams32768.kl

/-- Modelled from the spec: the Hash Codec (`phcDecode`, defined outside `kdf.go`)
accepts the self-embedding algorithm's own text form as it is, recognises its id and hands
the whole string to that algorithm's verifier; stated at every hash `doBcrypt` can return
for `password`. -/
def BcryptCodec (env : Env) (password : Bytes) : Prop :=
  ∀ hash, env.bcryptGenerateFromPassword password bcrypt.DefaultCost = .ok hash →
    ∃ params salt,
      env.phcDecode (toGoString hash) = .ok (env.bcryptHash, params, salt, hash)

/-- Modelled from the spec: the self-embedding algorithm's own verifier
(`bcrypt.CompareHashAndPassword`, a library function) accepts the password its hashing
primitive was given; stated at every hash `doBcrypt` can return for `password`. -/
def BcryptVerifies (env : Env) (password : Bytes) : Prop :=
  ∀ hash, env.bcryptGenerateFromPassword password bcrypt.DefaultCost = .ok hash →
    env.bcryptCompareHashAndPassword hash password = none

/-- The derivation of `other` under the salt and parameters stored in a scrypt hash of
`password` yields a key, and that key is not the stored one (no collision). -/
def ScryptNoCollision (env : Env) (password other : Bytes) : Prop :=
  ∀ salt hash, env.phcGetSalt 16 = .ok salt →
    env.scryptKey password salt env.scryptParams32768.N env.scryptParams32768.r
        env.scryptParams32768.p env.scryptParams32768.kl = .ok hash →
      ∃ key, env.scryptKey other salt env.scryptParams32768.N env.scryptParams32768.r
          env.scryptParams32768.p (hash.length : Int) = .ok key ∧ key ≠ hash

/-- The bcrypt verifier does not accept `other` for a bcrypt hash of `password`
(no collision). -/
def BcryptNoCollision (env : Env) (password other : Bytes) : Prop :=
  ∀ hash, env.bcryptGenerateFromPassword password bcrypt.DefaultCost = .ok hash →
    env.bcryptCompareHashAndPassword hash other ≠ none

/-- The comparison of `compareAction` ran to its end with the verdict `valid`: the
arguments stage supplied a hash string and a candidate, the string decoded, and the
dispatch on the id either asked the bcrypt verifier or derived a scrypt key and compared
it with the stored one. -/
def Completed (env : Env) (ctx : Context) (valid : Bool) : Prop :=
  ∃ hashStr input id params salt hash,
    Supplies env ctx hashStr input ∧
    env.phcDecode hashStr = .ok (id, params, salt, hash) ∧
    ((id = env.bcryptHash ∧
        valid = (env.bcryptCompareHashAndPassword hash input == none)) ∨
     (id ≠ env.bcryptHash ∧ id = env.scryptHash ∧
        ∃ p hashedPass, env.newScryptParams params = .ok p ∧
          env.scryptKey input salt p.N p.r p.p (hash.length : Int) = .ok hashedPass ∧
          valid = (subtle.ConstantTimeCompare hash hashedPass == 1)))

/-- The failures of `compareAction` other than a non-match: bad argument count, secret
given as an argument without the insecure flag, secret not readable, decode error,
unknown id, parameter error, derivation error. -/
def Failure (env : Env) (ctx : Context) : Prop :=
  ctx.NArg = 0 ∨ 2 < ctx.NArg ∨
  (ctx.NArg = 2 ∧ ctx.insecure = false) ∨
  (ctx.NArg = 1 ∧ ∃ err, env.readInput "Enter password to compare: " = .error err) ∨
  ∃ hashStr input, Supplies env ctx hashStr input ∧
    ((∃ err, env.phcDecode hashStr = .error err) ∨
     ∃ id params salt hash, env.phcDecode hashStr = .ok (id, params, salt, hash) ∧
       id ≠ env.bcryptHash ∧
       (id ≠ env.scryptHash ∨
        (∃ err, env.newScryptParams params = .error err) ∨
        ∃ p err, env.newScryptParams params = .ok p ∧
          env.scryptKey input salt p.N p.r p.p (hash.length : Int) = .error err))

/-- Lines 115 to 121 of `hashAction`: print the hash the derivation returned, or return
its error. -/
def printHash : (GoString × Option Error) × Trace → Option Error × Trace
  | ((_, some err), w) => (some err, w)
  | ((hash, none), w) => (none, fmt.Println hash w)

/-- The cost settings an event carries are the fixed ones: a salt request is for 16
bytes, a `scrypt.Key` call carries `N`, `r`, `p` and the key length of the registry entry
`E`, a `bcrypt.GenerateFromPassword` call carries the cost 10. -/
def Event.usesFixedParams (E : ScryptParams) : Event → Prop
  | .phcGetSalt size => size = 16
  | .scryptKey _ _ N r p keyLen => N = E.N ∧ r = E.r ∧ p = E.p ∧ keyLen = E.kl
  | .bcryptGenerateFromPassword _ cost => cost = 10
  | _ => True

/-- The event neither reads a secret from the terminal nor hands a derivation or
verification primitive any secret other than `secret`. -/
def Event.usesOnly (secret : Bytes) : Event → Prop
  | .ReadInput _ => False
  | .scryptKey password _ _ _ _ _ => password = secret
  | .bcryptGenerateFromPassword password _ => password = secret
  | .bcryptCompareHashAndPassword _ password => password = secret
  | _ => True

namespace Sample

/-- A sample secret. -/
def secret : Bytes := lit "correct horse battery staple"

/-- The sample secret with different letter case. -/
def other : Bytes := lit "Correct Horse Battery Staple"

/-- The salt the sample environment draws for a request of 16 bytes. -/
def salt : Bytes := (List.range 16).map (fun i => Fin.ofNat (i * 37 + 11))

/-- The key the sample environment derives from `secret` and `salt`. -/
def key : Bytes := stretch secret salt 32777 32

/-- The key the sample environment derives from `other` and `salt`. -/
def otherKey : Bytes := stretch other salt 32777 32

/-- The string `doScrypt` returns for `secret` in the sample environment. -/
def scryptString : GoString := phcEncode (lit "scrypt") (lit "N=32768,r=8,p=1") salt key

/-- The string `doBcrypt` returns for `secret` in the sample environment. -/
def bcryptOut : GoString := bcryptString secret 10

/-- The parameters the sample parser reads back. -/
def parsed : ScryptParams := { N := 32768, r := 8, p := 1, kl := 0 }

end Sample

/-- The lines a run wrote to standard output, oldest first: the arguments of its
`fmt.Println` calls.  No other event of the model is a write of the action to standard
output, and no event is a write of the action to standard error. -/
def stdoutLines : Trace → List GoString
  | [] => []
  | Event.Println line :: rest => line :: stdoutLines rest
  | _ :: rest => stdoutLines rest

namespace Sample

/-- A scrypt hash string whose key field is empty. -/
def emptyKeyString : GoString := phcEncode (lit "scrypt") (lit "N=32768,r=8,p=1") salt []

end Sample

end Kdf

/-! ## `step crypto jwt sign`

A shallow embedding of `signAction` and `readPayload` of `command/crypto/jwt/sign.go`,
in the same style: collaborators are fields of an environment, and every call of a
collaborator and every line on standard output is appended to a trace. -/

namespace Jwt

open Kdf (Bytes GoString lit)

/-- Non-nil Go error values that `sign.go` builds or passes on.  The constructors named
after `errs.*` stand for the values those helpers of the `errs` package return (their
`ctx` argument only feeds the message text and is left out). -/
inductive Error where
  /-- Value of `errors.New(msg)`; also any error produced inside a collaborator. -/
  | New (msg : String)
  /-- Value of `errors.Errorf(format, args...)`. -/
  | Errorf (format : String) (args : List GoString)
  /-- Value of `errors.Wrap(cause, msg)` for a non-nil `cause`. -/
  | Wrap (cause : Error) (msg : String)
  /-- Value of `errors.Wrapf(cause, format, args...)` for a non-nil `cause`. -/
  | Wrapf (cause : Error) (format : String) (args : List GoString)
  /-- Value of `errs.RequiredOrFlag(ctx, flag1, flag2)`. -/
  | RequiredOrFlag (flag1 flag2 : String)
  /-- Value of `errs.MutuallyExclusiveFlags(ctx, flag1, flag2)`. -/
  | MutuallyExclusiveFlags (flag1 flag2 : String)
  /-- Value of `errs.RequiredWithFlag(ctx, flag, required)`. -/
  | RequiredWithFlag (flag required : String)
  /-- Value of `errs.FileError(cause, filename)`. -/
  | FileError (cause : Error) (filename : GoString)
  deriving DecidableEq, Repr

/-- A decoded JSON object (`map[string]interface{}`): member names with their
values. -/
abbrev Payload := List (GoString × GoString)

/-- What `signAction` reads of a `*jose.JSONWebKey`: the fields `Key`, `KeyID`,
`Algorithm`, `Use` and the result of the method `IsPublic()`. -/
structure JSONWebKey where
  Key : Bytes
  KeyID : GoString
  Algorithm : GoString
  Use : GoString
  IsPublic : Bool
  deriving DecidableEq, Repr

/-- The struct `jose.Claims` as `signAction` fills it; a `jose.NumericDate` is an `int64`
number of seconds. -/
structure Claims where
  Issuer : GoString
  Subject : GoString
  Audience : List GoString
  Expiry : Int
  NotBefore : Int
  IssuedAt : Int
  ID : GoString
  deriving DecidableEq, Repr

/-- A `jose.SignerOptions` value: the extra headers set so far, oldest first
(`WithType(t)` sets the header "typ"). -/
structure SignerOptions where
  headers : List (GoString × GoString)
  deriving DecidableEq, Repr

/-- A signer handle returned by `jose.NewSigner`. -/
structure Signer where
  id : Nat
  deriving DecidableEq, Repr

/-- A Go `time.Time` as `Before` reads it: the seconds since January 1 of year 1
(an `int64`) and the nanoseconds within the second. -/
structure Time where
  sec : Int
  nsec : Int
  deriving DecidableEq, Repr

/-- What the `*cli.Context` offers to `signAction`: the positional arguments, the flags,
and `ctx.IsSet("jti")`. -/
structure Context where
  args : List GoString
  subtle : Bool
  alg : GoString
  key : GoString
  jwks : GoString
  kid : GoString
  iss : GoString
  sub : GoString
  aud : List GoString
  exp : Int
  nbf : Int
  iat : Int
  jti : GoString
  jtiIsSet : Bool
  noKid : Bool
  deriving DecidableEq, Repr

/-- One observable step of `signAction`. -/
inductive Event where
  | ReadFile (filename : GoString)
  | DecodeJSON (fromStdin : Bool)
  | ParseKey (filename use alg kid : GoString) (subtle : Bool)
  | ParseKeySet (filename alg kid : GoString) (subtle : Bool)
  | ValidateJWK (jwk : JSONWebKey)
  | Now
  | RandHex (length : Int)
  | NewSigner (alg : GoString) (key : Bytes) (so : SignerOptions)
  | CompactSerialize (signer : Signer) (c : Claims) (aud : Payload) (payload : Payload)
  | Println (line : GoString)
  deriving DecidableEq, Repr

/-- The sequence of events so far, oldest first. -/
abbrev Trace := List Event

/-- The collaborators of `sign.go`: the file system and STDIN with the JSON decoder, the
`jose` package (key parsing and validation, numeric dates, signer, serialisation),
`utils.RandHex` and the clock. -/
structure Env where
  /-- Result of `ioutil.ReadFile(filename)`. -/
  readFile : GoString → Except Error Bytes
  /-- Result of `json.NewDecoder(os.Stdin).Decode(&v)`: the decoded object or an error. -/
  decodeStdin : Except Error Payload
  /-- Result of `json.NewDecoder(bytes.NewReader(b)).Decode(&v)`. -/
  decodeBytes : Bytes → Except Error Payload
  /-- Result of `jose.ParseKey(filename, use, alg, kid, subtle)`. -/
  parseKey : GoString → GoString → GoString → GoString → Bool → Except Error JSONWebKey
  /-- Result of `jose.ParseKeySet(filename, alg, kid, subtle)`. -/
  parseKeySet : GoString → GoString → GoString → Bool → Except Error JSONWebKey
  /-- Result of `jose.ValidateJWK(jwk)`; `none` is `nil`. -/
  validateJWK : JSONWebKey → Option Error
  /-- Result of the call of `time.Now()` that follows `n` earlier calls in the run. -/
  timeNow : Nat → Time
  /-- Result of `jose.NewNumericDate(t)`. -/
  newNumericDate : Time → Int
  /-- Result of `utils.RandHex(length)`. -/
  randHex : Int → Except Error GoString
  /-- Result of `jose.NewSigner(jose.SigningKey(alg, key), so)`. -/
  newSigner : GoString → Bytes → SignerOptions → Except Error Signer
  /-- Result of
  `jose.Signed(signer).Claims(c).Claims(aud).Claims(payload).CompactSerialize()`. -/
  compactSerialize : Signer → Claims → Payload → Payload → Except Error GoString

/-! ### Library functions with a fixed definition -/

/-- An `int64` after arithmetic that may wrap around. -/
def wrap64 (x : Int) : Int := (x + 2 ^ 63) % 2 ^ 64 - 2 ^ 63

/-- The constant `unixToInternal` of package `time`: the seconds from January 1 of
year 1 to January 1, 1970. -/
def unixToInternal : Int := 62135596800

/-- Go `time.Unix(sec, 0)`. -/
def time.Unix (sec : Int) : Time := { sec := wrap64 (sec + unixToInternal), nsec := 0 }

/-- Go `t.Before(u)`. -/
def Time.Before (t u : Time) : Bool :=
  decide (t.sec < u.sec ∨ (t.sec = u.sec ∧ t.nsec < u.nsec))

/-- The method `Time()` of `jose.NumericDate`: `time.Unix(int64(n), 0)`. -/
def NumericDate.Time (n : Int) : Time := time.Unix n

/-! ### Calls of collaborators, recorded in the trace -/

/-- Call `ioutil.ReadFile(filename)`. -/
def ioutil.ReadFile (env : Env) (filename : GoString) (w : Trace) :
    Except Error Bytes × Trace :=
  (env.readFile filename, w ++ [Event.ReadFile filename])

/-- Decode one JSON object from `os.Stdin`. -/
def json.DecodeStdin (env : Env) (w : Trace) : Except Error Payload × Trace :=
  (env.decodeStdin, w ++ [Event.DecodeJSON true])

/-- Decode one JSON object from the bytes `b`. -/
def json.DecodeBytes (env : Env) (b : Bytes) (w : Trace) : Except Error Payload × Trace :=
  (env.decodeBytes b, w ++ [Event.DecodeJSON false])

/-- Call `jose.ParseKey(filename, use, alg, kid, subtle)`. -/
def jose.ParseKey (env : Env) (filename use alg kid : GoString) (subtle : Bool)
    (w : Trace) : Except Error JSONWebKey × Trace :=
  (env.parseKey filename use alg kid subtle,
    w ++ [Event.ParseKey filename use alg kid subtle])

/-- Call `jose.ParseKeySet(filename, alg, kid, subtle)`. -/
def jose.ParseKeySet (env : Env) (filename alg kid : GoString) (subtle : Bool)
    (w : Trace) : Except Error JSONWebKey × Trace :=
  (env.parseKeySet filename alg kid subtle, w ++ [Event.ParseKeySet filename alg kid subtle])

/-- Call `jose.ValidateJWK(jwk)`. -/
def jose.ValidateJWK (env : Env) (jwk : JSONWebKey) (w : Trace) : Option Error × Trace :=
  (env.validateJWK jwk, w ++ [Event.ValidateJWK jwk])

/-- The number of `time.Now()` calls recorded in a trace. -/
def nowCalls (w : Trace) : Nat := w.countP (fun e => decide (e = Event.Now))

/-- Call `time.Now()`. -/
def time.Now (env : Env) (w : Trace) : Time × Trace :=
  (env.timeNow (nowCalls w), w ++ [Event.Now])

/-- Call `utils.RandHex(length)`. -/
def utils.RandHex (env : Env) (length : Int) (w : Trace) : Except Error GoString × Trace :=
  (env.randHex length, w ++ [Event.RandHex length])

/-- Call `jose.NewSigner(jose.SigningKey(alg, key), so)`. -/
def jose.NewSigner (env : Env) (alg : GoString) (key : Bytes) (so : SignerOptions)
    (w : Trace) : Except Error Signer × Trace :=
  (env.newSigner alg key so, w ++ [Event.NewSigner alg key so])

/-- Call `jose.Signed(signer).Claims(c).Claims(aud).Claims(payload).CompactSerialize()`. -/
def jose.CompactSerialize (env : Env) (signer : Signer) (c : Claims) (aud payload : Payload)
    (w : Trace) : Except Error GoString × Trace :=
  (env.compactSerialize signer c aud payload,
    w ++ [Event.CompactSerialize signer c aud payload])

/-- Call `fmt.Println(s)`: one line on standard output. -/
def fmt.Println (s : GoString) (w : Trace) : Trace := w ++ [Event.Println s]

/-! ### The sign operation -/

/-- Go `readPayload(filename)`. -/
def readPayload (env : Env) (filename : GoString) (w : Trace) :
    Except Error Payload × Trace :=
  if filename = lit "-" then
    match json.DecodeStdin env w with
    | (.error err, w1) => (.error (Error.Wrap err "error decoding JSON from STDIN"), w1)
    | (.ok v, w1) => (.ok v, w1)
  else
    match ioutil.ReadFile env filename w with
    | (.error err, w1) => (.error (Error.FileError err filename), w1)
    | (.ok b, w1) =>
      match json.DecodeBytes env b w1 with
      | (.error err, w2) =>
        (.error (Error.Wrapf err "error decoding JSON from %s" [filename]), w2)
      | (.ok v, w2) => (.ok v, w2)

/-- Lines 250 to 317 of `signAction`, entered with the payload, the validated key `jwk`
and the trace so far: add the claims, validate the recommended claims, sign, print. -/
def signClaims (env : Env) (ctx : Context) (payload : Payload) (jwk : JSONWebKey)
    (w3 : Trace) : Option Error × Trace :=
  -- Add claims
  let c0 : Claims :=
    { Issuer := ctx.iss, Subject := ctx.sub, Audience := ctx.aud,
      Expiry := ctx.exp, NotBefore := ctx.nbf, IssuedAt := ctx.iat, ID := ctx.jti }
  match time.Now env w3 with
  | (now, w4) =>
    let c1 : Claims :=
      { c0 with NotBefore := if c0.NotBefore = 0 then env.newNumericDate now
                             else c0.NotBefore }
    let c2 : Claims :=
      { c1 with IssuedAt := if c1.IssuedAt = 0 then env.newNumericDate now
                            else c1.IssuedAt }
    let c? : (Error ⊕ Claims) × Trace :=
      if c2.ID = lit "" ∧ ctx.jtiIsSet then
        match utils.RandHex env 40 w4 with
        | (.error err, w5) => (.inl (Error.Wrap err "error creating random jti"), w5)
        | (.ok id, w5) => (.inr { c2 with ID := id }, w5)
      else (.inr c2, w4)
    match c? with
    | (.inl err, w5) => (some err, w5)
    | (.inr c, w5) =>
      -- Validate recommended claims
      let check : Option Error × Trace :=
        if !ctx.subtle then
          if c.Issuer.length = 0 then
            (some (Error.New "flag '--iss' is required unless '--subtle' is used"), w5)
          else if c.Audience.length = 0 then
            (some (Error.New "flag '--aud' is required unless '--subtle' is used"), w5)
          else if c.Subject.length = 0 then
            (some (Error.New "flag '--sub' is required unless '--subtle' is used"), w5)
          else if c.Expiry = 0 then
            (some (Error.New "flag '--exp' is required unless '--subtle' is used"), w5)
          else
            match time.Now env w5 with
            | (now2, w6) =>
              if (NumericDate.Time c.Expiry).Before now2 then
                (some (Error.New
                  "flag '--exp' must be in the future unless '--subtle' is used"), w6)
              else (none, w6)
        else (none, w5)
      match check with
      | (some err, w6) => (some err, w6)
      | (none, w6) =>
        -- Sign
        let so0 : SignerOptions := { headers := [(lit "typ", lit "JWT")] }
        let so : SignerOptions :=
          if !ctx.noKid ∧ jwk.KeyID ≠ lit "" then
            { headers := so0.headers ++ [(lit "kid", jwk.KeyID)] }
          else so0
        match jose.NewSigner env jwk.Algorithm jwk.Key so w6 with
        | (.error err, w7) => (some (Error.Wrapf err "error creating JWT signer" []), w7)
        | (.ok signer, w7) =>
          -- Some implementations only accept "aud" as a string.
          let aud : Payload :=
            match c.Audience with
            | [a] => [(lit "aud", a)]
            | _ => []
          match jose.CompactSerialize env signer c aud payload w7 with
          | (.error err, w8) => (some (Error.Wrapf err "error serializing JWT" []), w8)
          | (.ok raw, w8) => (none, fmt.Println raw w8)

/-- Go `signAction(ctx)`: the returned error and the trace.  Lines 180 to 248 are here,
lines 250 to 317 are `signClaims`. -/
def signAction (env : Env) (ctx : Context) (w : Trace) : Option Error × Trace :=
  -- Read payload if provided
  let payload? : (Error ⊕ Payload) × Trace :=
    match ctx.args with
    | [] => (.inr [], w)
    | [filename] =>
      match readPayload env filename w with
      | (.error err, w1) => (.inl err, w1)
      | (.ok payload, w1) => (.inr payload, w1)
    | _ :: rest => (.inl (Error.Errorf "unknown arguments %v" rest), w)
  match payload? with
  | (.inl err, w1) => (some err, w1)
  | (.inr payload, w1) =>
    let isSubtle := ctx.subtle
    let alg := ctx.alg
    -- Validate key, jwks and kid
    let key := ctx.key
    let jwks := ctx.jwks
    let kid := ctx.kid
    if key = lit "" ∧ jwks = lit "" then (some (Error.RequiredOrFlag "key" "jwks"), w1)
    else if key ≠ lit "" ∧ jwks ≠ lit "" then
      (some (Error.MutuallyExclusiveFlags "key" "jwks"), w1)
    else if jwks ≠ lit "" ∧ kid = lit "" then
      (some (Error.RequiredWithFlag "kid" "jwks"), w1)
    else
      -- Read key from --key or --jwks
      let jwk? : (Error ⊕ JSONWebKey) × Trace :=
        if key ≠ lit "" then
          match jose.ParseKey env key (lit "sig") alg kid isSubtle w1 with
          | (.error err, w2) => (.inl err, w2)
          | (.ok jwk, w2) => (.inr jwk, w2)
        else if jwks ≠ lit "" then
          match jose.ParseKeySet env jwks alg kid isSubtle w1 with
          | (.error err, w2) => (.inl err, w2)
          | (.ok jwk, w2) => (.inr jwk, w2)
        else (.inl (Error.RequiredOrFlag "key" "jwks"), w1)
      match jwk? with
      | (.inl err, w2) => (some err, w2)
      | (.inr jwk, w2) =>
        -- Public keys cannot be used for signing
        if jwk.IsPublic then (some (Error.New "cannot use a public key for signing"), w2)
        -- Key "use" must be "sig" to use for signing
        else if jwk.Use ≠ lit "sig" ∧ jwk.Use ≠ lit "" then
          (some (Error.Errorf "invalid jwk use: found '%s', expecting 'sig' (signature)"
            [jwk.Use]), w2)
        else if jwk.Algorithm = lit "" then
          (some (Error.New "flag '--alg' is required with the given key"), w2)
        else
          match jose.ValidateJWK env jwk w2 with
          | (some err, w3) => (some err, w3)
          | (none, w3) => signClaims env ctx payload jwk w3

/-! ### Vocabulary of the statements -/

/-- The value is in the range of a Go `int64`. -/
def IsInt64 (x : Int) : Prop := -2 ^ 63 ≤ x ∧ x < 2 ^ 63

/-- The instant `exp` seconds after January 1, 1970 is earlier than the instant `now`. -/
def Expired (exp : Int) (now : Time) : Prop :=
  exp + unixToInternal < now.sec ∨ (exp + unixToInternal = now.sec ∧ 0 < now.nsec)

instance (x : Int) : Decidable (IsInt64 x) :=
  inferInstanceAs (Decidable (-2 ^ 63 ≤ x ∧ x < 2 ^ 63))

instance (exp : Int) (now : Time) : Decidable (Expired exp now) :=
  inferInstanceAs (Decidable
    (exp + unixToInternal < now.sec ∨ (exp + unixToInternal = now.sec ∧ 0 < now.nsec)))

/-- The payload stage of `signAction` succeeds with `payload`, leaving the trace `w`:
no argument and the empty object, or one argument that `readPayload` reads. -/
def PayloadRead (env : Env) (ctx : Context) (payload : Payload) (w : Trace) : Prop :=
  (ctx.args = [] ∧ payload = [] ∧ w = []) ∨
  ∃ filename, ctx.args = [filename] ∧ readPayload env filename [] = (.ok payload, w)

/-- The key stage of `signAction` loads `jwk` with the call `ev`: exactly one of the
flags `key` and `jwks` is given (`jwks` together with `kid`), and the parser returns
`jwk`. -/
def KeyLoaded (env : Env) (ctx : Context) (jwk : JSONWebKey) (ev : Event) : Prop :=
  (ctx.key ≠ lit "" ∧ ctx.jwks = lit "" ∧
    env.parseKey ctx.key (lit "sig") ctx.alg ctx.kid ctx.subtle = .ok jwk ∧
    ev = Event.ParseKey ctx.key (lit "sig") ctx.alg ctx.kid ctx.subtle) ∨
  (ctx.key = lit "" ∧ ctx.jwks ≠ lit "" ∧ ctx.kid ≠ lit "" ∧
    env.parseKeySet ctx.jwks ctx.alg ctx.kid ctx.subtle = .ok jwk ∧
    ev = Event.ParseKeySet ctx.jwks ctx.alg ctx.kid ctx.subtle)

/-- The invocation passes key loading and validation with the key `jwk`, leaving the
trace `w`: the payload is read, the key is loaded, it is private, its use is "sig" or
empty, it names an algorithm, and `jose.ValidateJWK` accepts it. -/
def KeyAccepted (env : Env) (ctx : Context) (payload : Payload) (jwk : JSONWebKey)
    (w : Trace) : Prop :=
  ∃ wp ev, PayloadRead env ctx payload wp ∧ KeyLoaded env ctx jwk ev ∧
    jwk.IsPublic = false ∧ (jwk.Use = lit "sig" ∨ jwk.Use = lit "") ∧
    jwk.Algorithm ≠ lit "" ∧ env.validateJWK jwk = none ∧
    w = wp ++ [ev, Event.ValidateJWK jwk]

/-- The event creates a signer or signs a token. -/
def Event.isSigning : Event → Bool
  | .NewSigner _ _ _ => true
  | .CompactSerialize _ _ _ _ => true
  | _ => false

/-- The event is a line on standard output. -/
def Event.isPrint : Event → Bool
  | .Println _ => true
  | _ => false

/-! ### A sample environment -/

namespace Sample

/-- A private signing key. -/
def jwk : JSONWebKey :=
  { Key := lit "secret-key", KeyID := lit "k1", Algorithm := lit "HS256", Use := lit "sig",
    IsPublic := false }

/-- A clock that reads 1700000000.5 seconds after January 1, 1970 at every call. -/
def now : Time := { sec := 1700000000 + unixToInternal, nsec := 500000000 }

/-- The sample environment: one key file, no payload file, a signer that always
works. -/
def env : Env where
  readFile := fun _ => .error (Error.New "no such file")
  decodeStdin := .ok []
  decodeBytes := fun _ => .error (Error.New "unexpected end of JSON input")
  parseKey := fun filename _ _ _ _ =>
    if filename = lit "key.json" then .ok jwk else .error (Error.New "no such file")
  parseKeySet := fun _ _ _ _ => .error (Error.New "no such file")
  validateJWK := fun _ => none
  timeNow := fun _ => now
  newNumericDate := fun t => t.sec - unixToInternal
  randHex := fun _ => .ok (lit "0123456789abcdef0123456789abcdef01234567")
  newSigner := fun _ _ _ => .ok { id := 0 }
  compactSerialize := fun _ c _ _ => .ok (lit "header." ++ c.Issuer ++ lit ".signature")

/-- A sign invocation with the key file and every recommended claim, expiring at
`exp`. -/
def ctx (subtle : Bool) (iss : GoString) (exp : Int) : Context :=
  { args := [], subtle := subtle, alg := lit "", key := lit "key.json", jwks := lit "",
    kid := lit "", iss := iss, sub := lit "alice", aud := [lit "api"], exp := exp,
    nbf := 0, iat := 0, jti := lit "", jtiIsSet := false, noKid := false }

/-- The trace of the sample invocations up to the end of key validation. -/
def keyTrace (subtle : Bool) : Trace :=
  [Event.ParseKey (lit "key.json") (lit "sig") (lit "") (lit "") subtle,
    Event.ValidateJWK jwk]

end Sample

end Jwt

namespace Kdf

/-! ## Constant-time comparison -/

theorem ConstantTimeByteEq_zero (v : Nat) (hv : v < 256) :
    subtle.ConstantTimeByteEq v 0 = 1 ↔ v = 0 := by
  unfold subtle.ConstantTimeByteEq
  simp only [Nat.xor_zero, Nat.shiftRight_eq_div_pow]
  constructor
  · intro h
    have h2 : (((v % 2 ^ 32 + 2 ^ 32 - 1) % 2 ^ 32) / 2 ^ 31) = 1 := by
      simp only [Int.ofNat_eq_coe] at h
      exact_mod_cast h
    omega
  · intro h
    subst h
    decide

theorem lor_eq_zero (a b : Nat) : a ||| b = 0 ↔ a = 0 ∧ b = 0 := by
  constructor
  · intro h
    have key : ∀ i, (a.testBit i || b.testBit i) = false := by
      intro i
      rw [← Nat.testBit_or, h]; simp
    constructor <;> apply Nat.eq_of_testBit_eq <;> intro i <;> have := key i <;> simp_all
  · rintro ⟨rfl, rfl⟩; rfl

theorem orXor_eq_zero (xs : Bytes) : ∀ (ys : Bytes) (v : Nat), v < 256 →
    xs.length = ys.length → (subtle.orXor xs ys v = 0 ↔ v = 0 ∧ xs = ys) := by
  induction xs with
  | nil =>
    intro ys v _ hl
    cases ys with
    | nil => simp [subtle.orXor]
    | cons y ys => simp at hl
  | cons x xs ih =>
    intro ys v hv hl
    cases ys with
    | nil => simp at hl
    | cons y ys =>
      simp only [List.length_cons, Nat.add_right_cancel_iff] at hl
      have hx : x.val ^^^ y.val < 2 ^ 8 := Nat.xor_lt_two_pow x.isLt y.isLt
      have hor : v ||| (x.val ^^^ y.val) < 2 ^ 8 := Nat.or_lt_two_pow hv hx
      have hmod : (v ||| (x.val ^^^ y.val)) % 256 = v ||| (x.val ^^^ y.val) :=
        Nat.mod_eq_of_lt hor
      simp only [subtle.orXor]
      rw [ih ys _ (Nat.mod_lt _ (by decide)) hl, hmod, lor_eq_zero, Nat.xor_eq_zero]
      constructor
      · rintro ⟨⟨hv0, hxy⟩, rfl⟩
        exact ⟨hv0, by rw [Fin.ext hxy]⟩
      · rintro ⟨hv0, hxy⟩
        injection hxy with h1 h2
        exact ⟨⟨hv0, by rw [h1]⟩, h2⟩

theorem orXor_lt (xs : Bytes) : ∀ (ys : Bytes) (v : Nat), v < 256 →
    subtle.orXor xs ys v < 256 := by
  induction xs with
  | nil => intro ys v hv; cases ys <;> simpa [subtle.orXor] using hv
  | cons x xs ih =>
    intro ys v hv
    cases ys with
    | nil => simpa [subtle.orXor] using hv
    | cons y ys =>
      simp only [subtle.orXor]
      exact ih ys _ (Nat.mod_lt _ (by decide))

/-- `subtle.ConstantTimeCompare` returns 1 exactly on equal byte sequences. -/
theorem ConstantTimeCompare_eq_one (x y : Bytes) :
    subtle.ConstantTimeCompare x y = 1 ↔ x = y := by
  unfold subtle.ConstantTimeCompare
  by_cases hl : x.length = y.length
  · simp only [hl, ne_eq, not_true_eq_false, if_false]
    rw [ConstantTimeByteEq_zero _ (orXor_lt x y 0 (by decide)),
      orXor_eq_zero x y 0 (by decide) hl]
    simp
  · simp only [ne_eq, hl, not_false_eq_true, if_true]
    constructor
    · intro h; simp at h
    · intro h; exact absurd (congrArg List.length h) hl

/-- `subtle.ConstantTimeCompare` returns 0 or 1. -/
theorem ConstantTimeCompare_beq (x y : Bytes) :
    (subtle.ConstantTimeCompare x y == 1) = decide (x = y) := by
  by_cases h : x = y
  · have := (ConstantTimeCompare_eq_one x y).2 h
    subst h
    simp [this]
  · have := mt (ConstantTimeCompare_eq_one x y).1 h
    simp [this, h]

/-! ## Stage lemmas for `compareAction` -/

theorem compareAction_decode_error (env : Env) (ctx : Context) (hashStr : GoString)
    (input : Bytes) (err : Error) (hsup : Supplies env ctx hashStr input)
    (hdec : env.phcDecode hashStr = .error err) :
    compareAction env ctx [] =
      (some (Error.Wrap err "error decoding hash"),
        readTrace ctx ++ [Event.phcDecode hashStr]) := by
  rcases hsup with ⟨ha, hr⟩ | ⟨a, ha, hi, _⟩
  · simp [compareAction, Context.NArg, Context.Get, ha, hr, utils.ReadInput, phcDecode,
      hdec, readTrace]
  · simp [compareAction, Context.NArg, Context.Get, ha, hi, phcDecode, hdec, readTrace]

theorem compareAction_bcrypt (env : Env) (ctx : Context) (hashStr : GoString)
    (input : Bytes) (id params : GoString) (salt hash : Bytes)
    (hsup : Supplies env ctx hashStr input)
    (hdec : env.phcDecode hashStr = .ok (id, params, salt, hash))
    (hid : id = env.bcryptHash) :
    compareAction env ctx [] =
      if env.bcryptCompareHashAndPassword hash input = none then
        (none, readTrace ctx ++ [Event.phcDecode hashStr,
          Event.bcryptCompareHashAndPassword hash input, Event.Println (lit "ok")])
      else
        (some (Error.New "fail"), readTrace ctx ++ [Event.phcDecode hashStr,
          Event.bcryptCompareHashAndPassword hash input]) := by
  rcases hsup with ⟨ha, hr⟩ | ⟨a, ha, hi, hb⟩
  · cases hv : env.bcryptCompareHashAndPassword hash input <;>
    simp [compareAction, Context.NArg, Context.Get, ha, hr, utils.ReadInput, phcDecode,
      hdec, readTrace, hid, bcrypt.CompareHashAndPassword, fmt.Println, hv]
  · subst hb
    cases hv : env.bcryptCompareHashAndPassword hash (toBytes a) <;>
    simp [compareAction, Context.NArg, Context.Get, ha, hi, phcDecode, hdec, readTrace,
      hid, bcrypt.CompareHashAndPassword, fmt.Println, hv]

theorem compareAction_scrypt (env : Env) (ctx : Context) (hashStr : GoString)
    (input : Bytes) (id params : GoString) (salt hash : Bytes) (p : ScryptParams)
    (hashedPass : Bytes)
    (hsup : Supplies env ctx hashStr input)
    (hdec : env.phcDecode hashStr = .ok (id, params, salt, hash))
    (hnb : id ≠ env.bcryptHash) (hid : id = env.scryptHash)
    (hp : env.newScryptParams params = .ok p)
    (hkey : env.scryptKey input salt p.N p.r p.p (hash.length : Int) = .ok hashedPass) :
    compareAction env ctx [] =
      if hash = hashedPass then
        (none, readTrace ctx ++ [Event.phcDecode hashStr,
          Event.scryptKey input salt p.N p.r p.p (hash.length : Int),
          Event.Println (lit "ok")])
      else
        (some (Error.New "fail"), readTrace ctx ++ [Event.phcDecode hashStr,
          Event.scryptKey input salt p.N p.r p.p (hash.length : Int)]) := by
  have hnb2 : ¬ env.scryptHash = env.bcryptHash := hid ▸ hnb
  rcases hsup with ⟨ha, hr⟩ | ⟨a, ha, hi, hb⟩
  · by_cases he : hash = hashedPass
    · subst he
      simp [compareAction, Context.NArg, Context.Get, ha, hr, utils.ReadInput, phcDecode,
        hdec, readTrace, hid, hnb2, hp, scrypt.Key, hkey, fmt.Println,
        ConstantTimeCompare_beq]
    · simp [compareAction, Context.NArg, Context.Get, ha, hr, utils.ReadInput, phcDecode,
        hdec, readTrace, hid, hnb2, hp, scrypt.Key, hkey, fmt.Println,
        ConstantTimeCompare_beq, he]
  · subst hb
    by_cases he : hash = hashedPass
    · subst he
      simp [compareAction, Context.NArg, Context.Get, ha, hi, phcDecode, hdec, readTrace,
        hid, hnb2, hp, scrypt.Key, hkey, fmt.Println, ConstantTimeCompare_beq]
    · simp [compareAction, Context.NArg, Context.Get, ha, hi, phcDecode, hdec, readTrace,
        hid, hnb2, hp, scrypt.Key, hkey, fmt.Println, ConstantTimeCompare_beq, he]

/-! ## Stage lemmas for the hash operation -/

theorem doScrypt_eval (env : Env) (password salt : Bytes)
    (hsalt : env.phcGetSalt 16 = .ok salt) :
    doScrypt env password [] =
      match env.scryptKey password salt env.scryptParams32768.N env.scryptParams32768.r
          env.scryptParams32768.p env.scryptParams32768.kl with
      | .error err =>
        ((lit "", some (Error.Wrap err "error deriving password")),
          [Event.phcGetSalt 16, Event.scryptKey password salt env.scryptParams32768.N
            env.scryptParams32768.r env.scryptParams32768.p env.scryptParams32768.kl])
      | .ok hash =>
        ((env.phcEncode (lit "scrypt") (env.getParams env.scryptParams32768) salt hash, none),
          [Event.phcGetSalt 16, Event.scryptKey password salt env.scryptParams32768.N
            env.scryptParams32768.r env.scryptParams32768.p env.scryptParams32768.kl]) := by
  cases hk : env.scryptKey password salt env.scryptParams32768.N env.scryptParams32768.r
      env.scryptParams32768.p env.scryptParams32768.kl <;>
  simp [doScrypt, phcGetSalt, hsalt, scrypt.Key, hk]

theorem doScrypt_salt_error (env : Env) (password : Bytes) (err : Error)
    (hsalt : env.phcGetSalt 16 = .error err) :
    doScrypt env password [] =
      ((lit "", some (Error.Wrap err "error creating salt")), [Event.phcGetSalt 16]) := by
  simp [doScrypt, phcGetSalt, hsalt]

theorem doScrypt_ok (env : Env) (password : Bytes) (h : GoString)
    (hh : (doScrypt env password []).1 = (h, none)) :
    ∃ salt hash, env.phcGetSalt 16 = .ok salt ∧
      env.scryptKey password salt env.scryptParams32768.N env.scryptParams32768.r
        env.scryptParams32768.p env.scryptParams32768.kl = .ok hash ∧
      h = env.phcEncode (lit "scrypt") (env.getParams env.scryptParams32768) salt hash := by
  cases hs : env.phcGetSalt 16 with
  | error err => rw [doScrypt_salt_error env password err hs] at hh; simp at hh
  | ok salt =>
    rw [doScrypt_eval env password salt hs] at hh
    cases hk : env.scryptKey password salt env.scryptParams32768.N env.scryptParams32768.r
        env.scryptParams32768.p env.scryptParams32768.kl with
    | error err => rw [hk] at hh; simp at hh
    | ok hash =>
      rw [hk] at hh
      simp only [Prod.mk.injEq, and_true] at hh
      exact ⟨salt, hash, rfl, hk, hh.symm⟩

theorem doBcrypt_eval (env : Env) (password : Bytes) :
    doBcrypt env password [] =
      match env.bcryptGenerateFromPassword password bcrypt.DefaultCost with
      | .error err =>
        ((lit "", some (Error.Wrap err "error deriving password")),
          [Event.bcryptGenerateFromPassword password bcrypt.DefaultCost])
      | .ok hash =>
        ((toGoString hash, none),
          [Event.bcryptGenerateFromPassword password bcrypt.DefaultCost]) := by
  cases hk : env.bcryptGenerateFromPassword password bcrypt.DefaultCost <;>
  simp [doBcrypt, bcrypt.GenerateFromPassword, hk]

theorem doBcrypt_ok (env : Env) (password : Bytes) (h : GoString)
    (hh : (doBcrypt env password []).1 = (h, none)) :
    ∃ hash, env.bcryptGenerateFromPassword password bcrypt.DefaultCost = .ok hash ∧
      h = toGoString hash := by
  rw [doBcrypt_eval] at hh
  cases hk : env.bcryptGenerateFromPassword password bcrypt.DefaultCost with
  | error err => rw [hk] at hh; simp at hh
  | ok hash =>
    rw [hk] at hh
    simp only [Prod.mk.injEq, and_true] at hh
    exact ⟨hash, rfl, hh.symm⟩

theorem readTrace_no_print (ctx : Context) : ∀ e ∈ readTrace ctx, e.isPrint = false := by
  intro e he
  unfold readTrace at he
  split at he
  · simp at he; subst he; rfl
  · simp at he

/-! ## Claims -/

/-- C1: hash-then-compare consistency.  For every secret `s` and for either algorithm, if
hashing `s` succeeds and yields the string `h`, then `compareAction` on `h` and the same
`s` returns no error and its last event is the line "ok", the only line it prints.  The
codec and the libraries, which `kdf.go` does not define, enter through their contracts at
the hash in question. -/
theorem hash_then_compare_ok (env : Env) (ctx : Context) (s : Bytes) (h : GoString)
    (hhash :
      ((doScrypt env s []).1 = (h, none) ∧ ScryptCodec env s ∧ ScryptKeyLength env s) ∨
      ((doBcrypt env s []).1 = (h, none) ∧ BcryptCodec env s ∧ BcryptVerifies env s))
    (hsup : Supplies env ctx h s) :
    (compareAction env ctx []).1 = none ∧
      ∃ w, (compareAction env ctx []).2 = w ++ [Event.Println (lit "ok")] ∧
        ∀ e ∈ w, e.isPrint = false := by
  rcases hhash with ⟨hh, ⟨hsid, hne, hcodec⟩, hlen⟩ | ⟨hh, hcodec, hver⟩
  · obtain ⟨salt, hash, hsalt, hkey, hhe⟩ := doScrypt_ok env s h hh
    obtain ⟨hdec, q, hq, hN, hr, hp⟩ := hcodec salt hash hsalt hkey
    rw [← hhe] at hdec
    have hl := hlen salt hash hsalt hkey
    have hkey2 : env.scryptKey s salt q.N q.r q.p (hash.length : Int) = .ok hash := by
      have hl2 : (hash.length : Int) = env.scryptParams32768.kl := hl
      rw [hN, hr, hp, hl2]; exact hkey
    have hnb : lit "scrypt" ≠ env.bcryptHash := by
      intro hc; exact hne (by rw [hsid, hc])
    have key := compareAction_scrypt env ctx h s _ _ salt hash q hash hsup hdec hnb
      hsid.symm hq hkey2
    rw [if_pos rfl] at key
    rw [key]
    refine ⟨rfl, readTrace ctx ++ [Event.phcDecode h,
      Event.scryptKey s salt q.N q.r q.p (hash.length : Int)], by simp, ?_⟩
    intro e he
    rcases List.mem_append.1 he with h1 | h1
    · exact readTrace_no_print ctx e h1
    · simp at h1; rcases h1 with rfl | rfl <;> rfl
  · obtain ⟨hash, hgen, hhe⟩ := doBcrypt_ok env s h hh
    obtain ⟨params, salt, hdec⟩ := hcodec hash hgen
    rw [← hhe] at hdec
    have key := compareAction_bcrypt env ctx h s _ params salt hash hsup hdec rfl
    rw [if_pos (hver hash hgen)] at key
    rw [key]
    refine ⟨rfl, readTrace ctx ++ [Event.phcDecode h,
      Event.bcryptCompareHashAndPassword hash s], by simp, ?_⟩
    intro e he
    rcases List.mem_append.1 he with h1 | h1
    · exact readTrace_no_print ctx e h1
    · simp at h1; rcases h1 with rfl | rfl <;> rfl

/-- C2: for a decoded hash with the scrypt id (distinct from the bcrypt id), parameters
that parse and a derivation that succeeds, `compareAction` calls `scrypt.Key` once, on the
candidate, the recovered salt, the recovered `N`, `r`, `p` and the length of the stored
key; it returns no error and prints "ok" exactly when the stored key and the derived key
are equal byte for byte, and otherwise returns the error "fail"; keys of different
lengths give "fail". -/
theorem compare_scrypt_rederives (env : Env) (ctx : Context) (hashStr : GoString)
    (input : Bytes) (id params : GoString) (salt hash : Bytes) (p : ScryptParams)
    (hashedPass : Bytes)
    (hsup : Supplies env ctx hashStr input)
    (hdec : env.phcDecode hashStr = .ok (id, params, salt, hash))
    (hid : id = env.scryptHash) (hnb : env.scryptHash ≠ env.bcryptHash)
    (hp : env.newScryptParams params = .ok p)
    (hkey : env.scryptKey input salt p.N p.r p.p (hash.length : Int) = .ok hashedPass) :
    (compareAction env ctx []).2 =
        readTrace ctx ++ [Event.phcDecode hashStr,
          Event.scryptKey input salt p.N p.r p.p (hash.length : Int)] ++
          (if hash = hashedPass then [Event.Println (lit "ok")] else []) ∧
      ((compareAction env ctx []).1 = none ↔ hash = hashedPass) ∧
      (hash ≠ hashedPass → (compareAction env ctx []).1 = some (Error.New "fail")) ∧
      (hash.length ≠ hashedPass.length →
        (compareAction env ctx []).1 = some (Error.New "fail")) := by
  have hnb2 : id ≠ env.bcryptHash := by rw [hid]; exact hnb
  have key := compareAction_scrypt env ctx hashStr input id params salt hash p hashedPass
    hsup hdec hnb2 hid hp hkey
  rw [key]
  by_cases he : hash = hashedPass
  · subst he
    simp
  · simp [he]

/-- C3: negative case.  For secrets `s1 ≠ s2` and either algorithm, if hashing `s1` yields
`h` and the derivation of `s2` under the salt and parameters stored in `h` does not
collide with the stored key, then `compareAction` on `h` and `s2` returns the error "fail"
and prints nothing. -/
theorem wrong_secret_fails (env : Env) (ctx : Context) (s1 s2 : Bytes) (h : GoString)
    (_hne : s1 ≠ s2)
    (hhash :
      ((doScrypt env s1 []).1 = (h, none) ∧ ScryptCodec env s1 ∧
        ScryptNoCollision env s1 s2) ∨
      ((doBcrypt env s1 []).1 = (h, none) ∧ BcryptCodec env s1 ∧
        BcryptNoCollision env s1 s2))
    (hsup : Supplies env ctx h s2) :
    (compareAction env ctx []).1 = some (Error.New "fail") ∧
      ∀ e ∈ (compareAction env ctx []).2, e.isPrint = false := by
  rcases hhash with ⟨hh, ⟨hsid, hne, hcodec⟩, hnc⟩ | ⟨hh, hcodec, hnc⟩
  · obtain ⟨salt, hash, hsalt, hkey, hhe⟩ := doScrypt_ok env s1 h hh
    obtain ⟨hdec, q, hq, hN, hr, hp⟩ := hcodec salt hash hsalt hkey
    rw [← hhe] at hdec
    obtain ⟨key2, hkey2, hdiff⟩ := hnc salt hash hsalt hkey
    have hkey3 : env.scryptKey s2 salt q.N q.r q.p (hash.length : Int) = .ok key2 := by
      rw [hN, hr, hp]; exact hkey2
    have hnb : lit "scrypt" ≠ env.bcryptHash := by
      intro hc; exact hne (by rw [hsid, hc])
    have key := compareAction_scrypt env ctx h s2 _ _ salt hash q key2 hsup hdec hnb
      hsid.symm hq hkey3
    rw [if_neg (fun hc => hdiff hc.symm)] at key
    rw [key]
    refine ⟨rfl, ?_⟩
    intro e he
    rcases List.mem_append.1 he with h1 | h1
    · exact readTrace_no_print ctx e h1
    · simp at h1; rcases h1 with rfl | rfl <;> rfl
  · obtain ⟨hash, hgen, hhe⟩ := doBcrypt_ok env s1 h hh
    obtain ⟨params, salt, hdec⟩ := hcodec hash hgen
    rw [← hhe] at hdec
    have key := compareAction_bcrypt env ctx h s2 _ params salt hash hsup hdec rfl
    rw [if_neg (hnc hash hgen)] at key
    rw [key]
    refine ⟨rfl, ?_⟩
    intro e he
    rcases List.mem_append.1 he with h1 | h1
    · exact readTrace_no_print ctx e h1
    · simp at h1; rcases h1 with rfl | rfl <;> rfl

/-! ## Further stage lemmas -/

theorem compareAction_unknown_id (env : Env) (ctx : Context) (hashStr : GoString)
    (input : Bytes) (id params : GoString) (salt hash : Bytes)
    (hsup : Supplies env ctx hashStr input)
    (hdec : env.phcDecode hashStr = .ok (id, params, salt, hash))
    (hnb : id ≠ env.bcryptHash) (hns : id ≠ env.scryptHash) :
    compareAction env ctx [] =
      (some (Error.Errorf "invalid or unsupported hash method with id '%s'" id),
        readTrace ctx ++ [Event.phcDecode hashStr]) := by
  rcases hsup with ⟨ha, hr⟩ | ⟨a, ha, hi, _⟩
  · simp [compareAction, Context.NArg, Context.Get, ha, hr, utils.ReadInput, phcDecode,
      hdec, readTrace, hnb, hns]
  · simp [compareAction, Context.NArg, Context.Get, ha, hi, phcDecode, hdec, readTrace,
      hnb, hns]

theorem compareAction_params_error (env : Env) (ctx : Context) (hashStr : GoString)
    (input : Bytes) (id params : GoString) (salt hash : Bytes) (err : Error)
    (hsup : Supplies env ctx hashStr input)
    (hdec : env.phcDecode hashStr = .ok (id, params, salt, hash))
    (hnb : id ≠ env.bcryptHash) (hid : id = env.scryptHash)
    (hp : env.newScryptParams params = .error err) :
    compareAction env ctx [] = (some err, readTrace ctx ++ [Event.phcDecode hashStr]) := by
  have hnb2 : ¬ env.scryptHash = env.bcryptHash := hid ▸ hnb
  rcases hsup with ⟨ha, hr⟩ | ⟨a, ha, hi, _⟩
  · simp [compareAction, Context.NArg, Context.Get, ha, hr, utils.ReadInput, phcDecode,
      hdec, readTrace, hid, hnb2, hp]
  · simp [compareAction, Context.NArg, Context.Get, ha, hi, phcDecode, hdec, readTrace,
      hid, hnb2, hp]

theorem compareAction_derive_error (env : Env) (ctx : Context) (hashStr : GoString)
    (input : Bytes) (id params : GoString) (salt hash : Bytes) (p : ScryptParams)
    (err : Error)
    (hsup : Supplies env ctx hashStr input)
    (hdec : env.phcDecode hashStr = .ok (id, params, salt, hash))
    (hnb : id ≠ env.bcryptHash) (hid : id = env.scryptHash)
    (hp : env.newScryptParams params = .ok p)
    (hkey : env.scryptKey input salt p.N p.r p.p (hash.length : Int) = .error err) :
    compareAction env ctx [] =
      (some (Error.Wrap err "error deriving input"),
        readTrace ctx ++ [Event.phcDecode hashStr,
          Event.scryptKey input salt p.N p.r p.p (hash.length : Int)]) := by
  have hnb2 : ¬ env.scryptHash = env.bcryptHash := hid ▸ hnb
  rcases hsup with ⟨ha, hr⟩ | ⟨a, ha, hi, hb⟩
  · simp [compareAction, Context.NArg, Context.Get, ha, hr, utils.ReadInput, phcDecode,
      hdec, readTrace, hid, hnb2, hp, scrypt.Key, hkey]
  · subst hb
    simp [compareAction, Context.NArg, Context.Get, ha, hi, phcDecode, hdec, readTrace,
      hid, hnb2, hp, scrypt.Key, hkey]

theorem compareAction_no_args (env : Env) (ctx : Context) (h0 : ctx.NArg = 0) :
    compareAction env ctx [] = (some (Error.MissingArguments "PHC_HASH"), []) := by
  simp [compareAction, h0]

theorem compareAction_too_many (env : Env) (ctx : Context) (h2 : 2 < ctx.NArg) :
    compareAction env ctx [] = (some Error.TooManyArguments, []) := by
  unfold compareAction
  split
  · omega
  · omega
  · omega
  · rfl

theorem compareAction_insecure (env : Env) (ctx : Context) (h2 : ctx.NArg = 2)
    (hi : ctx.insecure = false) :
    compareAction env ctx [] = (some (Error.InsecureArgument "INPUT"), []) := by
  simp [compareAction, h2, hi]

theorem compareAction_read_error (env : Env) (ctx : Context) (err : Error)
    (h1 : ctx.NArg = 1)
    (hr : env.readInput "Enter password to compare: " = .error err) :
    compareAction env ctx [] =
      (some err, [Event.ReadInput "Enter password to compare: "]) := by
  simp [compareAction, h1, utils.ReadInput, hr]

theorem compareAction_failure (env : Env) (ctx : Context) (hf : Failure env ctx) :
    (compareAction env ctx []).1 ≠ none := by
  rcases hf with h0 | h2 | ⟨h2, hi⟩ | ⟨h1, err, hr⟩ | ⟨hashStr, input, hsup, hrest⟩
  · rw [compareAction_no_args env ctx h0]; simp
  · rw [compareAction_too_many env ctx h2]; simp
  · rw [compareAction_insecure env ctx h2 hi]; simp
  · rw [compareAction_read_error env ctx err h1 hr]; simp
  · rcases hrest with ⟨err, hdec⟩ | ⟨id, params, salt, hash, hdec, hnb, hrest⟩
    · rw [compareAction_decode_error env ctx hashStr input err hsup hdec]; simp
    · rcases hrest with hns | ⟨err, hp⟩ | ⟨p, err, hp, hkey⟩
      · rw [compareAction_unknown_id env ctx hashStr input id params salt hash hsup hdec
          hnb hns]; simp
      · by_cases hid : id = env.scryptHash
        · rw [compareAction_params_error env ctx hashStr input id params salt hash err
            hsup hdec hnb hid hp]; simp
        · rw [compareAction_unknown_id env ctx hashStr input id params salt hash hsup hdec
            hnb hid]; simp
      · by_cases hid : id = env.scryptHash
        · rw [compareAction_derive_error env ctx hashStr input id params salt hash p err
            hsup hdec hnb hid hp hkey]; simp
        · rw [compareAction_unknown_id env ctx hashStr input id params salt hash hsup hdec
            hnb hid]; simp

theorem compareAction_completed (env : Env) (ctx : Context) (valid : Bool)
    (hc : Completed env ctx valid) :
    (compareAction env ctx []).1 = if valid then none else some (Error.New "fail") := by
  obtain ⟨hashStr, input, id, params, salt, hash, hsup, hdec, hcase⟩ := hc
  rcases hcase with ⟨hid, hv⟩ | ⟨hnb, hid, p, hashedPass, hp, hkey, hv⟩
  · rw [compareAction_bcrypt env ctx hashStr input id params salt hash hsup hdec hid]
    cases hb : env.bcryptCompareHashAndPassword hash input <;> simp [hb] at hv ⊢ <;>
      simp [hv]
  · rw [compareAction_scrypt env ctx hashStr input id params salt hash p hashedPass hsup
      hdec hnb hid hp hkey]
    rw [ConstantTimeCompare_beq] at hv
    by_cases he : hash = hashedPass <;> simp [he] at hv ⊢ <;> simp [hv]

theorem compareAction_cases (env : Env) (ctx : Context) :
    Completed env ctx true ∨ Completed env ctx false ∨ Failure env ctx := by
  have bool_cases : ∀ (P : Bool → Prop) (b : Bool), P b → P true ∨ P false := by
    intro P b hb; cases b
    · exact Or.inr hb
    · exact Or.inl hb
  have after : ∀ hashStr input, Supplies env ctx hashStr input →
      Completed env ctx true ∨ Completed env ctx false ∨ Failure env ctx := by
    intro hashStr input hsup
    cases hdec : env.phcDecode hashStr with
    | error err =>
      exact Or.inr (Or.inr (Or.inr (Or.inr (Or.inr (Or.inr
        ⟨hashStr, input, hsup, Or.inl ⟨err, hdec⟩⟩)))))
    | ok val =>
      obtain ⟨id, params, salt, hash⟩ := val
      by_cases hb : id = env.bcryptHash
      · have := bool_cases (Completed env ctx) _
          ⟨hashStr, input, id, params, salt, hash, hsup, hdec, Or.inl ⟨hb, rfl⟩⟩
        rcases this with h | h
        · exact Or.inl h
        · exact Or.inr (Or.inl h)
      · have fail : (id ≠ env.scryptHash ∨
            (∃ err, env.newScryptParams params = .error err) ∨
            ∃ p err, env.newScryptParams params = .ok p ∧
              env.scryptKey input salt p.N p.r p.p (hash.length : Int) = .error err) →
            Failure env ctx := fun hx =>
          Or.inr (Or.inr (Or.inr (Or.inr
            ⟨hashStr, input, hsup, Or.inr ⟨id, params, salt, hash, hdec, hb, hx⟩⟩)))
        by_cases hs : id = env.scryptHash
        · cases hp : env.newScryptParams params with
          | error err => exact Or.inr (Or.inr (fail (Or.inr (Or.inl ⟨err, hp⟩))))
          | ok p =>
            cases hk : env.scryptKey input salt p.N p.r p.p (hash.length : Int) with
            | error err =>
              exact Or.inr (Or.inr (fail (Or.inr (Or.inr ⟨p, err, hp, hk⟩))))
            | ok hashedPass =>
              have := bool_cases (Completed env ctx) _
                ⟨hashStr, input, id, params, salt, hash, hsup, hdec,
                  Or.inr ⟨hb, hs, p, hashedPass, hp, hk, rfl⟩⟩
              rcases this with h | h
              · exact Or.inl h
              · exact Or.inr (Or.inl h)
        · exact Or.inr (Or.inr (fail (Or.inl hs)))
  rcases hargs : ctx.args with _ | ⟨h, _ | ⟨a, _ | ⟨b, rest⟩⟩⟩
  · exact Or.inr (Or.inr (Or.inl (by simp [Context.NArg, hargs])))
  · cases hr : env.readInput "Enter password to compare: " with
    | error err =>
      exact Or.inr (Or.inr (Or.inr (Or.inr (Or.inr (Or.inl
        ⟨by simp [Context.NArg, hargs], err, hr⟩)))))
    | ok input => exact after h input (Or.inl ⟨hargs, hr⟩)
  · cases hi : ctx.insecure with
    | false =>
      exact Or.inr (Or.inr (Or.inr (Or.inr (Or.inl ⟨by simp [Context.NArg, hargs], hi⟩))))
    | true => exact after h (toBytes a) (Or.inr ⟨a, hargs, hi, rfl⟩)
  · exact Or.inr (Or.inr (Or.inr (Or.inl (by simp [Context.NArg, hargs]))))

/-! ## Stage lemmas for `hashAction` -/

theorem doScrypt_run (env : Env) (password : Bytes) (w : Trace) :
    doScrypt env password w =
      ((doScrypt env password []).1, w ++ (doScrypt env password []).2) := by
  unfold doScrypt phcGetSalt scrypt.Key
  cases env.phcGetSalt 16 with
  | error err => simp
  | ok salt =>
    simp only
    cases env.scryptKey password salt env.scryptParams32768.N env.scryptParams32768.r
      env.scryptParams32768.p env.scryptParams32768.kl <;> simp

theorem doBcrypt_run (env : Env) (password : Bytes) (w : Trace) :
    doBcrypt env password w =
      ((doBcrypt env password []).1, w ++ (doBcrypt env password []).2) := by
  unfold doBcrypt bcrypt.GenerateFromPassword
  cases env.bcryptGenerateFromPassword password bcrypt.DefaultCost <;> simp

theorem doScrypt_events (env : Env) (password : Bytes) :
    ∃ rest, (doScrypt env password []).2 = Event.phcGetSalt 16 :: rest ∧
      ∀ e ∈ rest, ∃ salt, e = Event.scryptKey password salt env.scryptParams32768.N
        env.scryptParams32768.r env.scryptParams32768.p env.scryptParams32768.kl := by
  cases hs : env.phcGetSalt 16 with
  | error err => rw [doScrypt_salt_error env password err hs]; exact ⟨[], rfl, by simp⟩
  | ok salt =>
    rw [doScrypt_eval env password salt hs]
    cases env.scryptKey password salt env.scryptParams32768.N env.scryptParams32768.r
        env.scryptParams32768.p env.scryptParams32768.kl <;>
      exact ⟨[_], rfl, by simp⟩

theorem doBcrypt_events (env : Env) (password : Bytes) :
    (doBcrypt env password []).2 =
      [Event.bcryptGenerateFromPassword password bcrypt.DefaultCost] := by
  rw [doBcrypt_eval]
  cases env.bcryptGenerateFromPassword password bcrypt.DefaultCost <;> rfl

theorem printHash_trace (r : (GoString × Option Error) × Trace) :
    (printHash r).2 = r.2 ∨ ∃ hash, (printHash r).2 = r.2 ++ [Event.Println hash] := by
  obtain ⟨⟨hash, err⟩, w⟩ := r
  cases err with
  | none => exact Or.inr ⟨hash, rfl⟩
  | some e => exact Or.inl rfl

theorem hashAction_bad_alg (env : Env) (ctx : Context) (h1 : ctx.alg ≠ lit "scrypt")
    (h2 : ctx.alg ≠ lit "bcrypt") :
    hashAction env ctx [] = (some (Error.InvalidFlagValue "alg" ctx.alg ""), []) := by
  simp [hashAction, h1, h2]

theorem printHash_eq (kdf : Bytes → Trace → (GoString × Option Error) × Trace)
    (input : Bytes) (w : Trace) :
    (match kdf input w with
      | ((_, some err), w2) => (some err, w2)
      | ((hash, none), w2) => (none, fmt.Println hash w2)) = printHash (kdf input w) := by
  unfold printHash
  rfl

theorem hashAction_supplied (env : Env) (ctx : Context) (input : Bytes)
    (halg : ctx.alg = lit "scrypt" ∨ ctx.alg = lit "bcrypt")
    (hsup : SuppliesHash env ctx input) :
    hashAction env ctx [] =
      printHash ((if ctx.alg = lit "scrypt" then doScrypt env else doBcrypt env) input
        (readTraceHash ctx)) := by
  have hne : lit "bcrypt" ≠ lit "scrypt" := by decide
  rcases hsup with ⟨ha, hr⟩ | ⟨a, ha, hi, hb⟩
  · rcases halg with hs | hs <;>
    simp [hashAction, hs, hne, Context.NArg, ha, utils.ReadInput, hr, readTraceHash,
      printHash_eq]
  · subst hb
    rcases halg with hs | hs <;>
    simp [hashAction, hs, hne, Context.NArg, Context.Get, ha, hi, readTraceHash,
      printHash_eq]

theorem hashAction_insecure (env : Env) (ctx : Context)
    (halg : ctx.alg = lit "scrypt" ∨ ctx.alg = lit "bcrypt") (h1 : ctx.NArg = 1)
    (hi : ctx.insecure = false) :
    hashAction env ctx [] = (some (Error.InsecureArgument "INPUT"), []) := by
  have hne : lit "bcrypt" ≠ lit "scrypt" := by decide
  rcases halg with hs | hs <;> simp [hashAction, hs, hne, h1, hi]

theorem hashAction_too_many (env : Env) (ctx : Context)
    (halg : ctx.alg = lit "scrypt" ∨ ctx.alg = lit "bcrypt") (h2 : 1 < ctx.NArg) :
    hashAction env ctx [] = (some Error.TooManyArguments, []) := by
  have hne : lit "bcrypt" ≠ lit "scrypt" := by decide
  obtain ⟨n, hn⟩ : ∃ n, ctx.NArg = n + 2 := ⟨ctx.NArg - 2, by omega⟩
  rcases halg with hs | hs <;> simp [hashAction, hs, hne, hn]

theorem hashAction_read_error (env : Env) (ctx : Context) (err : Error)
    (halg : ctx.alg = lit "scrypt" ∨ ctx.alg = lit "bcrypt") (h0 : ctx.NArg = 0)
    (hr : env.readInput "Enter password to hash: " = .error err) :
    hashAction env ctx [] = (some err, [Event.ReadInput "Enter password to hash: "]) := by
  have hne : lit "bcrypt" ≠ lit "scrypt" := by decide
  rcases halg with hs | hs <;> simp [hashAction, hs, hne, h0, utils.ReadInput, hr]

/-- Every run of `hashAction` stops before the derivation with at most the read event
in its trace, or hands a supplied secret to the selected derivation. -/
theorem hashAction_cases (env : Env) (ctx : Context) :
    (∃ err, hashAction env ctx [] = (some err, [])) ∨
    (ctx.NArg = 0 ∧
      ∃ err, hashAction env ctx [] = (some err, [Event.ReadInput "Enter password to hash: "])) ∨
    ((ctx.alg = lit "scrypt" ∨ ctx.alg = lit "bcrypt") ∧
      ∃ input, SuppliesHash env ctx input ∧
        hashAction env ctx [] =
          printHash ((if ctx.alg = lit "scrypt" then doScrypt env else doBcrypt env) input
            (readTraceHash ctx))) := by
  by_cases halg : ctx.alg = lit "scrypt" ∨ ctx.alg = lit "bcrypt"
  · rcases hargs : ctx.args with _ | ⟨a, _ | ⟨b, rest⟩⟩
    · have h0 : ctx.NArg = 0 := by simp [Context.NArg, hargs]
      cases hr : env.readInput "Enter password to hash: " with
      | error err =>
        exact Or.inr (Or.inl ⟨h0, err, hashAction_read_error env ctx err halg h0 hr⟩)
      | ok input =>
        exact Or.inr (Or.inr ⟨halg, input, Or.inl ⟨hargs, hr⟩,
          hashAction_supplied env ctx input halg (Or.inl ⟨hargs, hr⟩)⟩)
    · have h1 : ctx.NArg = 1 := by simp [Context.NArg, hargs]
      cases hi : ctx.insecure with
      | false => exact Or.inl ⟨_, hashAction_insecure env ctx halg h1 hi⟩
      | true =>
        exact Or.inr (Or.inr ⟨halg, toBytes a, Or.inr ⟨a, hargs, hi, rfl⟩,
          hashAction_supplied env ctx _ halg (Or.inr ⟨a, hargs, hi, rfl⟩)⟩)
    · have h2 : 1 < ctx.NArg := by simp [Context.NArg, hargs]
      exact Or.inl ⟨_, hashAction_too_many env ctx halg h2⟩
  · rw [not_or] at halg
    exact Or.inl ⟨_, hashAction_bad_alg env ctx halg.1 halg.2⟩

theorem readTraceHash_events (ctx : Context) :
    ∀ e ∈ readTraceHash ctx, ctx.NArg = 0 ∧ e = Event.ReadInput "Enter password to hash: " := by
  intro e he
  unfold readTraceHash at he
  split at he
  · simp at he; exact ⟨by assumption, he⟩
  · simp at he

/-- The events of a run of `hashAction` that reached the derivation. -/
theorem kdf_events (env : Env) (ctx : Context) (input : Bytes) :
    ∀ e ∈ (printHash ((if ctx.alg = lit "scrypt" then doScrypt env else doBcrypt env) input
        (readTraceHash ctx))).2,
      (ctx.NArg = 0 ∧ e = Event.ReadInput "Enter password to hash: ") ∨
      e = Event.phcGetSalt 16 ∨
      (∃ salt, e = Event.scryptKey input salt env.scryptParams32768.N
        env.scryptParams32768.r env.scryptParams32768.p env.scryptParams32768.kl) ∨
      e = Event.bcryptGenerateFromPassword input bcrypt.DefaultCost ∨
      ∃ hash, e = Event.Println hash := by
  intro e he
  have hrun : ∀ e ∈ ((if ctx.alg = lit "scrypt" then doScrypt env else doBcrypt env) input
      (readTraceHash ctx)).2,
      (ctx.NArg = 0 ∧ e = Event.ReadInput "Enter password to hash: ") ∨
      e = Event.phcGetSalt 16 ∨
      (∃ salt, e = Event.scryptKey input salt env.scryptParams32768.N
        env.scryptParams32768.r env.scryptParams32768.p env.scryptParams32768.kl) ∨
      e = Event.bcryptGenerateFromPassword input bcrypt.DefaultCost := by
    intro e he
    split at he
    · rw [doScrypt_run] at he
      rcases List.mem_append.1 he with h1 | h1
      · exact Or.inl (readTraceHash_events ctx e h1)
      · obtain ⟨rest, hrest, hall⟩ := doScrypt_events env input
        rw [hrest] at h1
        rcases List.mem_cons.1 h1 with h2 | h2
        · exact Or.inr (Or.inl h2)
        · exact Or.inr (Or.inr (Or.inl (hall e h2)))
    · rw [doBcrypt_run] at he
      rcases List.mem_append.1 he with h1 | h1
      · exact Or.inl (readTraceHash_events ctx e h1)
      · rw [doBcrypt_events] at h1
        exact Or.inr (Or.inr (Or.inr (List.mem_singleton.1 h1)))
  rcases printHash_trace ((if ctx.alg = lit "scrypt" then doScrypt env else doBcrypt env)
      input (readTraceHash ctx)) with h | ⟨hash, h⟩
  · rw [h] at he
    rcases hrun e he with h1 | h1 | h1 | h1
    · exact Or.inl h1
    · exact Or.inr (Or.inl h1)
    · exact Or.inr (Or.inr (Or.inl h1))
    · exact Or.inr (Or.inr (Or.inr (Or.inl h1)))
  · rw [h] at he
    rcases List.mem_append.1 he with h1 | h1
    · rcases hrun e h1 with h1 | h1 | h1 | h1
      · exact Or.inl h1
      · exact Or.inr (Or.inl h1)
      · exact Or.inr (Or.inr (Or.inl h1))
      · exact Or.inr (Or.inr (Or.inr (Or.inl h1)))
    · exact Or.inr (Or.inr (Or.inr (Or.inr ⟨hash, List.mem_singleton.1 h1⟩)))

/-- The events of a run of `compareAction` that got past its arguments stage. -/
theorem compareAction_events (env : Env) (ctx : Context) (hashStr : GoString)
    (input : Bytes) (hsup : Supplies env ctx hashStr input) :
    ∀ e ∈ (compareAction env ctx []).2,
      e ∈ readTrace ctx ∨ e = Event.phcDecode hashStr ∨
      (∃ hash, e = Event.bcryptCompareHashAndPassword hash input) ∨
      (∃ salt N r p keyLen, e = Event.scryptKey input salt N r p keyLen) ∨
      e = Event.Println (lit "ok") := by
  intro e he
  cases hdec : env.phcDecode hashStr with
  | error err =>
    rw [compareAction_decode_error env ctx hashStr input err hsup hdec] at he
    simp only [List.mem_append, List.mem_singleton] at he
    rcases he with h | h
    · exact Or.inl h
    · exact Or.inr (Or.inl h)
  | ok val =>
    obtain ⟨id, params, salt, hash⟩ := val
    by_cases hb : id = env.bcryptHash
    · rw [compareAction_bcrypt env ctx hashStr input id params salt hash hsup hdec hb] at he
      split at he <;>
        simp only [List.mem_append, List.mem_cons, List.mem_singleton, List.not_mem_nil,
          or_false] at he
      · rcases he with h | h | h | h
        · exact Or.inl h
        · exact Or.inr (Or.inl h)
        · exact Or.inr (Or.inr (Or.inl ⟨hash, h⟩))
        · exact Or.inr (Or.inr (Or.inr (Or.inr h)))
      · rcases he with h | h | h
        · exact Or.inl h
        · exact Or.inr (Or.inl h)
        · exact Or.inr (Or.inr (Or.inl ⟨hash, h⟩))
    · by_cases hs : id = env.scryptHash
      · cases hp : env.newScryptParams params with
        | error err =>
          rw [compareAction_params_error env ctx hashStr input id params salt hash err hsup
            hdec hb hs hp] at he
          simp only [List.mem_append, List.mem_singleton] at he
          rcases he with h | h
          · exact Or.inl h
          · exact Or.inr (Or.inl h)
        | ok p =>
          cases hk : env.scryptKey input salt p.N p.r p.p (hash.length : Int) with
          | error err =>
            rw [compareAction_derive_error env ctx hashStr input id params salt hash p err
              hsup hdec hb hs hp hk] at he
            simp only [List.mem_append, List.mem_cons, List.mem_singleton,
              List.not_mem_nil, or_false] at he
            rcases he with h | h | h
            · exact Or.inl h
            · exact Or.inr (Or.inl h)
            · exact Or.inr (Or.inr (Or.inr (Or.inl ⟨_, _, _, _, _, h⟩)))
          | ok hashedPass =>
            rw [compareAction_scrypt env ctx hashStr input id params salt hash p hashedPass
              hsup hdec hb hs hp hk] at he
            split at he <;>
              simp only [List.mem_append, List.mem_cons, List.mem_singleton,
                List.not_mem_nil, or_false] at he
            · rcases he with h | h | h | h
              · exact Or.inl h
              · exact Or.inr (Or.inl h)
              · exact Or.inr (Or.inr (Or.inr (Or.inl ⟨_, _, _, _, _, h⟩)))
              · exact Or.inr (Or.inr (Or.inr (Or.inr h)))
            · rcases he with h | h | h
              · exact Or.inl h
              · exact Or.inr (Or.inl h)
              · exact Or.inr (Or.inr (Or.inr (Or.inl ⟨_, _, _, _, _, h⟩)))
      · rw [compareAction_unknown_id env ctx hashStr input id params salt hash hsup hdec
          hb hs] at he
        simp only [List.mem_append, List.mem_singleton] at he
        rcases he with h | h
        · exact Or.inl h
        · exact Or.inr (Or.inl h)

/-- C4: `compareAction` returns no error exactly when the comparison completed with a
match; a completed comparison without a match returns the error "fail"; every other
failure (bad argument count, missing insecure flag, unreadable secret, decode error,
unknown id, parameter error, derivation error) returns a non-nil error; and every run is
one of these three. -/
theorem compare_exit_status (env : Env) (ctx : Context) :
    ((compareAction env ctx []).1 = none ↔ Completed env ctx true) ∧
    (Completed env ctx false → (compareAction env ctx []).1 = some (Error.New "fail")) ∧
    (Failure env ctx → (compareAction env ctx []).1 ≠ none) ∧
    (Completed env ctx true ∨ Completed env ctx false ∨ Failure env ctx) := by
  refine ⟨⟨fun hnone => ?_, fun hc => ?_⟩, fun hc => ?_, compareAction_failure env ctx,
    compareAction_cases env ctx⟩
  · rcases compareAction_cases env ctx with h | h | h
    · exact h
    · have := compareAction_completed env ctx false h
      rw [hnone] at this
      simp at this
    · exact absurd hnone (compareAction_failure env ctx h)
  · simpa using compareAction_completed env ctx true hc
  · simpa using compareAction_completed env ctx false hc

/-- C5: `hashAction` stops at the flag check, returning the invalid-flag-value error for
`alg` with nothing read, derived or printed, exactly when `alg` is neither "scrypt" nor
"bcrypt"; the comparison is case-sensitive, so "Scrypt" and "BCRYPT" are rejected. -/
theorem hash_alg_accepted (env : Env) (ctx : Context) :
    (hashAction env ctx [] = (some (Error.InvalidFlagValue "alg" ctx.alg ""), []) ↔
      (ctx.alg ≠ lit "scrypt" ∧ ctx.alg ≠ lit "bcrypt")) ∧
    (∀ insecure args,
      hashAction env ⟨lit "Scrypt", insecure, args⟩ [] =
        (some (Error.InvalidFlagValue "alg" (lit "Scrypt") ""), []) ∧
      hashAction env ⟨lit "BCRYPT", insecure, args⟩ [] =
        (some (Error.InvalidFlagValue "alg" (lit "BCRYPT") ""), [])) := by
  refine ⟨⟨fun h => ?_, fun h => hashAction_bad_alg env ctx h.1 h.2⟩, fun insecure args =>
    ⟨hashAction_bad_alg env _ (show lit "Scrypt" ≠ lit "scrypt" by decide)
        (show lit "Scrypt" ≠ lit "bcrypt" by decide),
      hashAction_bad_alg env _ (show lit "BCRYPT" ≠ lit "scrypt" by decide)
        (show lit "BCRYPT" ≠ lit "bcrypt" by decide)⟩⟩
  by_contra hacc
  have halg : ctx.alg = lit "scrypt" ∨ ctx.alg = lit "bcrypt" := by
    by_contra hc
    rw [not_or] at hc
    exact hacc hc
  rcases hargs : ctx.args with _ | ⟨a, _ | ⟨b, rest⟩⟩
  · have h0 : ctx.NArg = 0 := by simp [Context.NArg, hargs]
    cases hr : env.readInput "Enter password to hash: " with
    | error err =>
      rw [hashAction_read_error env ctx err halg h0 hr] at h
      simp at h
    | ok input =>
      rw [hashAction_supplied env ctx input halg (Or.inl ⟨hargs, hr⟩)] at h
      have hmem : Event.ReadInput "Enter password to hash: " ∈
          (printHash ((if ctx.alg = lit "scrypt" then doScrypt env else doBcrypt env) input
            (readTraceHash ctx))).2 := by
        have hin : ∀ r : (GoString × Option Error) × Trace,
            Event.ReadInput "Enter password to hash: " ∈ r.2 →
            Event.ReadInput "Enter password to hash: " ∈ (printHash r).2 := by
          intro r hr2
          rcases printHash_trace r with h3 | ⟨hash, h3⟩ <;> rw [h3]
          · exact hr2
          · exact List.mem_append_left _ hr2
        apply hin
        split
        · rw [doScrypt_run]; simp [readTraceHash, h0]
        · rw [doBcrypt_run]; simp [readTraceHash, h0]
      rw [h] at hmem
      simp at hmem
  · have h1 : ctx.NArg = 1 := by simp [Context.NArg, hargs]
    cases hi : ctx.insecure with
    | false =>
      rw [hashAction_insecure env ctx halg h1 hi] at h
      simp at h
    | true =>
      rw [hashAction_supplied env ctx (toBytes a) halg (Or.inr ⟨a, hargs, hi, rfl⟩)] at h
      have hne : (printHash ((if ctx.alg = lit "scrypt" then doScrypt env else doBcrypt env)
          (toBytes a) (readTraceHash ctx))).2 ≠ [] := by
        have hin : ∀ r : (GoString × Option Error) × Trace, r.2 ≠ [] →
            (printHash r).2 ≠ [] := by
          intro r hr2
          rcases printHash_trace r with h3 | ⟨hash, h3⟩ <;> rw [h3]
          · exact hr2
          · simp
        apply hin
        split
        · rw [doScrypt_run]
          obtain ⟨rest, hrest, -⟩ := doScrypt_events env (toBytes a)
          rw [hrest]; simp
        · rw [doBcrypt_run, doBcrypt_events]; simp
      rw [h] at hne
      exact hne rfl
  · have h2 : 1 < ctx.NArg := by simp [Context.NArg, hargs]
    rw [hashAction_too_many env ctx halg h2] at h
    simp at h

theorem mem_printHash (r : (GoString × Option Error) × Trace) (e : Event) (he : e ∈ r.2) :
    e ∈ (printHash r).2 := by
  rcases printHash_trace r with h | ⟨hash, h⟩ <;> rw [h]
  · exact he
  · exact List.mem_append_left _ he

/-- C6, as amended.  Flag not set: `compareAction` with two arguments returns the
insecure-argument error, and `hashAction` with one argument returns the
insecure-argument error when `alg` is "scrypt" or "bcrypt" and the invalid-flag-value
error otherwise; in each case the trace is empty, so nothing is read, decoded, derived or
printed.  Flag set: `hashAction` runs the selected derivation on the bytes of the
argument and prints its result, so `bcrypt.GenerateFromPassword`, and `scrypt.Key` once a
salt is drawn, are called on exactly those bytes; `compareAction` decodes the first
argument and hands the bytes of the second to the bcrypt verifier or to `scrypt.Key`, and
its verdict is the one for those bytes; in neither action is a secret read from the
terminal or any other secret handed to a primitive. -/
theorem insecure_argument_gate (env : Env) (ctx : Context) (a : GoString) :
    (ctx.args = [a] → ctx.insecure = false →
      hashAction env ctx [] =
        (some (if ctx.alg = lit "scrypt" ∨ ctx.alg = lit "bcrypt"
          then Error.InsecureArgument "INPUT"
          else Error.InvalidFlagValue "alg" ctx.alg ""), [])) ∧
    (∀ h, ctx.args = [h, a] → ctx.insecure = false →
      compareAction env ctx [] = (some (Error.InsecureArgument "INPUT"), [])) ∧
    (ctx.args = [a] → ctx.insecure = true →
      (ctx.alg = lit "scrypt" →
        hashAction env ctx [] = printHash (doScrypt env (toBytes a) []) ∧
        ∀ salt, env.phcGetSalt 16 = .ok salt →
          Event.scryptKey (toBytes a) salt env.scryptParams32768.N env.scryptParams32768.r
            env.scryptParams32768.p env.scryptParams32768.kl ∈ (hashAction env ctx []).2) ∧
      (ctx.alg = lit "bcrypt" →
        hashAction env ctx [] = printHash (doBcrypt env (toBytes a) []) ∧
        Event.bcryptGenerateFromPassword (toBytes a) bcrypt.DefaultCost ∈
          (hashAction env ctx []).2) ∧
      ∀ e ∈ (hashAction env ctx []).2, e.usesOnly (toBytes a)) ∧
    (∀ h, ctx.args = [h, a] → ctx.insecure = true →
      (∀ e ∈ (compareAction env ctx []).2, e.usesOnly (toBytes a)) ∧
      (∀ err, env.phcDecode h = .error err →
        compareAction env ctx [] =
          (some (Error.Wrap err "error decoding hash"), [Event.phcDecode h])) ∧
      ∀ id params salt hash, env.phcDecode h = .ok (id, params, salt, hash) →
        (id = env.bcryptHash →
          compareAction env ctx [] =
            if env.bcryptCompareHashAndPassword hash (toBytes a) = none then
              (none, [Event.phcDecode h,
                Event.bcryptCompareHashAndPassword hash (toBytes a),
                Event.Println (lit "ok")])
            else
              (some (Error.New "fail"), [Event.phcDecode h,
                Event.bcryptCompareHashAndPassword hash (toBytes a)])) ∧
        (id ≠ env.bcryptHash → id = env.scryptHash →
          ∀ p, env.newScryptParams params = .ok p →
            compareAction env ctx [] =
              match env.scryptKey (toBytes a) salt p.N p.r p.p (hash.length : Int) with
              | .error err =>
                (some (Error.Wrap err "error deriving input"), [Event.phcDecode h,
                  Event.scryptKey (toBytes a) salt p.N p.r p.p (hash.length : Int)])
              | .ok hashedPass =>
                if hash = hashedPass then
                  (none, [Event.phcDecode h,
                    Event.scryptKey (toBytes a) salt p.N p.r p.p (hash.length : Int),
                    Event.Println (lit "ok")])
                else
                  (some (Error.New "fail"), [Event.phcDecode h,
                    Event.scryptKey (toBytes a) salt p.N p.r p.p (hash.length : Int)]))) := by
  have hne : lit "bcrypt" ≠ lit "scrypt" := by decide
  refine ⟨fun ha hi => ?_, fun h ha hi => ?_, fun ha hi => ⟨fun hs => ?_, fun hb => ?_,
    fun e he => ?_⟩, fun h ha hi => ⟨fun e he => ?_, fun err hdec => ?_,
    fun id params salt hash hdec => ⟨fun hid => ?_, fun hnb hid p hp => ?_⟩⟩⟩
  · by_cases halg : ctx.alg = lit "scrypt" ∨ ctx.alg = lit "bcrypt"
    · rw [if_pos halg]
      exact hashAction_insecure env ctx halg (by simp [Context.NArg, ha]) hi
    · rw [if_neg halg]
      rw [not_or] at halg
      exact hashAction_bad_alg env ctx halg.1 halg.2
  · exact compareAction_insecure env ctx (by simp [Context.NArg, ha]) hi
  · have h1 : ctx.NArg = 1 := by simp [Context.NArg, ha]
    have key := hashAction_supplied env ctx (toBytes a) (Or.inl hs) (Or.inr ⟨a, ha, hi, rfl⟩)
    rw [if_pos hs] at key
    have hrt : readTraceHash ctx = [] := by simp [readTraceHash, h1]
    rw [hrt] at key
    refine ⟨key, fun salt hsalt => ?_⟩
    rw [key]
    apply mem_printHash
    rw [doScrypt_eval env (toBytes a) salt hsalt]
    cases env.scryptKey (toBytes a) salt env.scryptParams32768.N env.scryptParams32768.r
      env.scryptParams32768.p env.scryptParams32768.kl <;> simp
  · have h1 : ctx.NArg = 1 := by simp [Context.NArg, ha]
    have hns : ctx.alg ≠ lit "scrypt" := by rw [hb]; exact hne
    have key := hashAction_supplied env ctx (toBytes a) (Or.inr hb) (Or.inr ⟨a, ha, hi, rfl⟩)
    rw [if_neg hns] at key
    have hrt : readTraceHash ctx = [] := by simp [readTraceHash, h1]
    rw [hrt] at key
    refine ⟨key, ?_⟩
    rw [key]
    apply mem_printHash
    rw [doBcrypt_events]
    exact List.mem_singleton.2 rfl
  · have h1 : ctx.NArg = 1 := by simp [Context.NArg, ha]
    by_cases halg : ctx.alg = lit "scrypt" ∨ ctx.alg = lit "bcrypt"
    · rw [hashAction_supplied env ctx (toBytes a) halg (Or.inr ⟨a, ha, hi, rfl⟩)] at he
      rcases kdf_events env ctx (toBytes a) e he with ⟨h0, -⟩ | rfl | ⟨salt, rfl⟩ | rfl |
        ⟨hash, rfl⟩
      · omega
      · trivial
      · rfl
      · rfl
      · trivial
    · rw [not_or] at halg
      rw [hashAction_bad_alg env ctx halg.1 halg.2] at he
      simp at he
  · have h2 : ctx.NArg = 2 := by simp [Context.NArg, ha]
    rcases compareAction_events env ctx h (toBytes a) (Or.inr ⟨a, ha, hi, rfl⟩) e he with
      h1 | rfl | ⟨hash, rfl⟩ | ⟨salt, N, r, p, kl, rfl⟩ | rfl
    · simp [readTrace, h2] at h1
    · trivial
    · rfl
    · rfl
    · trivial
  · have hrt : readTrace ctx = [] := by simp [readTrace, Context.NArg, ha]
    rw [compareAction_decode_error env ctx h (toBytes a) err (Or.inr ⟨a, ha, hi, rfl⟩) hdec,
      hrt]
    rfl
  · have hrt : readTrace ctx = [] := by simp [readTrace, Context.NArg, ha]
    rw [compareAction_bcrypt env ctx h (toBytes a) id params salt hash
      (Or.inr ⟨a, ha, hi, rfl⟩) hdec hid, hrt]
    rfl
  · have hrt : readTrace ctx = [] := by simp [readTrace, Context.NArg, ha]
    cases hk : env.scryptKey (toBytes a) salt p.N p.r p.p (hash.length : Int) with
    | error err =>
      rw [compareAction_derive_error env ctx h (toBytes a) id params salt hash p err
        (Or.inr ⟨a, ha, hi, rfl⟩) hdec hnb hid hp hk, hrt]
      rfl
    | ok hashedPass =>
      rw [compareAction_scrypt env ctx h (toBytes a) id params salt hash p hashedPass
        (Or.inr ⟨a, ha, hi, rfl⟩) hdec hnb hid hp hk, hrt]
      rfl

/-- C6, as stated, fails for `hashAction`: with one positional argument, no insecure flag
and the `alg` value "md5", the action returns the invalid-flag-value error, not the
insecure-argument error. -/
theorem insecure_argument_gate_counterexample :
    hashAction Sample.env ⟨lit "md5", false, [lit "hunter2"]⟩ [] =
        (some (Error.InvalidFlagValue "alg" (lit "md5") ""), []) ∧
      (hashAction Sample.env ⟨lit "md5", false, [lit "hunter2"]⟩ []).1 ≠
        some (Error.InsecureArgument "INPUT") := by
  decide

/-- C7: when `phcDecode` returns an error on the hash string that `compareAction` decodes,
the action returns that error wrapped with "error decoding hash"; its trace ends with the
decode call, so no derivation or verification primitive is called and nothing is
printed. -/
theorem decode_error_wrapped (env : Env) (ctx : Context) (hashStr : GoString)
    (input : Bytes) (err : Error) (hsup : Supplies env ctx hashStr input)
    (hdec : env.phcDecode hashStr = .error err) :
    compareAction env ctx [] =
        (some (Error.Wrap err "error decoding hash"),
          readTrace ctx ++ [Event.phcDecode hashStr]) ∧
      ∀ e ∈ (compareAction env ctx []).2, e.secret = none ∧ e.isPrint = false := by
  have key := compareAction_decode_error env ctx hashStr input err hsup hdec
  refine ⟨key, ?_⟩
  intro e he
  rw [key] at he
  rcases List.mem_append.1 he with h | h
  · unfold readTrace at h
    split at h
    · simp at h; subst h; exact ⟨rfl, rfl⟩
    · simp at h
  · simp at h; subst h; exact ⟨rfl, rfl⟩

/-- C8: when salt generation and derivation succeed, `doScrypt` requests a salt of
exactly 16 bytes, derives the key from the password, that salt and the `N`, `r`, `p` and
key length of the fixed registry entry, and returns the codec encoding of the id
"scrypt", the entry's parameter list, the salt and the key; in every run of `hashAction`,
whatever the flags and arguments, a salt request is for 16 bytes and a derivation call
carries the fixed cost settings. -/
theorem doScrypt_fixed_parameters (env : Env) (ctx : Context) (password salt hash : Bytes)
    (hsalt : env.phcGetSalt 16 = .ok salt)
    (hkey : env.scryptKey password salt env.scryptParams32768.N env.scryptParams32768.r
      env.scryptParams32768.p env.scryptParams32768.kl = .ok hash) :
    doScrypt env password [] =
        ((env.phcEncode (lit "scrypt") (env.getParams env.scryptParams32768) salt hash,
            none),
          [Event.phcGetSalt 16,
            Event.scryptKey password salt env.scryptParams32768.N env.scryptParams32768.r
              env.scryptParams32768.p env.scryptParams32768.kl]) ∧
      ∀ e ∈ (hashAction env ctx []).2, e.usesFixedParams env.scryptParams32768 := by
  refine ⟨by rw [doScrypt_eval env password salt hsalt, hkey], ?_⟩
  intro e he
  rcases hashAction_cases env ctx with ⟨err, h⟩ | ⟨-, err, h⟩ | ⟨-, input, -, h⟩
  · rw [h] at he; simp at he
  · rw [h] at he; simp at he; subst he; trivial
  · rw [h] at he
    rcases kdf_events env ctx input e he with ⟨-, rfl⟩ | rfl | ⟨s, rfl⟩ | rfl | ⟨hs, rfl⟩
    · trivial
    · rfl
    · exact ⟨rfl, rfl, rfl, rfl⟩
    · rfl
    · trivial

/-- C9: when the bcrypt hashing primitive succeeds, `doBcrypt` calls it once, with the
work factor 10, and returns its output unchanged, byte for byte, as the encoded
string. -/
theorem doBcrypt_native_output (env : Env) (password hash : Bytes)
    (hgen : env.bcryptGenerateFromPassword password 10 = .ok hash) :
    doBcrypt env password [] =
        ((toGoString hash, none), [Event.bcryptGenerateFromPassword password 10]) ∧
      toBytes (toGoString hash) = hash := by
  have hgen2 : env.bcryptGenerateFromPassword password bcrypt.DefaultCost = .ok hash := hgen
  refine ⟨?_, rfl⟩
  rw [doBcrypt_eval, hgen2]
  rfl

/-- C10: when the derivation primitive of the selected algorithm returns an error, the
hash operation returns the empty string with that error wrapped as "error deriving
password", `hashAction` returns the same error, the derivation primitive is called
exactly once in the run and nothing is printed. -/
theorem derivation_error_fatal (env : Env) (ctx : Context) (input : Bytes) (err : Error)
    (hsup : SuppliesHash env ctx input)
    (hfail :
      (ctx.alg = lit "scrypt" ∧ ∃ salt, env.phcGetSalt 16 = .ok salt ∧
        env.scryptKey input salt env.scryptParams32768.N env.scryptParams32768.r
          env.scryptParams32768.p env.scryptParams32768.kl = .error err) ∨
      (ctx.alg = lit "bcrypt" ∧
        env.bcryptGenerateFromPassword input bcrypt.DefaultCost = .error err)) :
    (ctx.alg = lit "scrypt" →
        (doScrypt env input []).1 =
          (lit "", some (Error.Wrap err "error deriving password"))) ∧
      (ctx.alg = lit "bcrypt" →
        (doBcrypt env input []).1 =
          (lit "", some (Error.Wrap err "error deriving password"))) ∧
      (hashAction env ctx []).1 = some (Error.Wrap err "error deriving password") ∧
      (hashAction env ctx []).2.countP Event.isDerivation = 1 ∧
      (hashAction env ctx []).2.countP Event.isPrint = 0 := by
  have hne : lit "bcrypt" ≠ lit "scrypt" := by decide
  have hread : (readTraceHash ctx).countP Event.isDerivation = 0 ∧
      (readTraceHash ctx).countP Event.isPrint = 0 := by
    unfold readTraceHash
    split <;> exact ⟨rfl, rfl⟩
  rcases hfail with ⟨hs, salt, hsalt, hkey⟩ | ⟨hs, hgen⟩
  · have hd := doScrypt_eval env input salt hsalt
    rw [hkey] at hd
    have ha := hashAction_supplied env ctx input (Or.inl hs) hsup
    rw [if_pos hs, doScrypt_run, hd] at ha
    refine ⟨fun _ => by rw [hd], fun hb => absurd (hs.symm.trans hb) hne.symm, ?_, ?_, ?_⟩
    · rw [ha]; rfl
    · rw [ha]
      simp only [printHash, List.countP_append, hread.1]
      rfl
    · rw [ha]
      simp only [printHash, List.countP_append, hread.2]
      rfl
  · have hd := doBcrypt_eval env input
    rw [hgen] at hd
    have hns : ctx.alg ≠ lit "scrypt" := by rw [hs]; exact hne
    have ha := hashAction_supplied env ctx input (Or.inr hs) hsup
    rw [if_neg hns, doBcrypt_run, hd] at ha
    refine ⟨fun hb => absurd hb hns, fun _ => by rw [hd], ?_, ?_, ?_⟩
    · rw [ha]; rfl
    · rw [ha]
      simp only [printHash, List.countP_append, hread.1]
      rfl
    · rw [ha]
      simp only [printHash, List.countP_append, hread.2]
      rfl

/-! ## The sample environment meets the contracts -/

theorem Sample.scryptCodec_secret : ScryptCodec Sample.env Sample.secret := by
  refine ⟨by decide, by decide, ?_⟩
  intro salt hash hsalt hkey
  obtain rfl : _ = salt := Except.ok.inj hsalt
  obtain rfl : _ = hash := Except.ok.inj hkey
  exact ⟨by decide, Sample.parsed, by decide, by decide⟩

theorem Sample.scryptKeyLength_secret : ScryptKeyLength Sample.env Sample.secret := by
  intro salt hash hsalt hkey
  obtain rfl : _ = salt := Except.ok.inj hsalt
  obtain rfl : _ = hash := Except.ok.inj hkey
  decide

theorem Sample.scryptNoCollision_secret :
    ScryptNoCollision Sample.env Sample.secret Sample.other := by
  intro salt hash hsalt hkey
  obtain rfl : _ = salt := Except.ok.inj hsalt
  obtain rfl : _ = hash := Except.ok.inj hkey
  exact ⟨Sample.otherKey, by decide, by decide⟩

theorem Sample.bcryptCodec_secret : BcryptCodec Sample.env Sample.secret := by
  intro hash hgen
  obtain rfl : _ = hash := Except.ok.inj hgen
  exact ⟨[], [], by decide⟩

theorem Sample.bcryptVerifies_secret : BcryptVerifies Sample.env Sample.secret := by
  intro hash hgen
  obtain rfl : _ = hash := Except.ok.inj hgen
  decide

theorem Sample.bcryptNoCollision_secret :
    BcryptNoCollision Sample.env Sample.secret Sample.other := by
  intro hash hgen
  obtain rfl : _ = hash := Except.ok.inj hgen
  decide

/-! ## Concrete instances of the claims -/

/-- C1 at the sample environment: the scrypt and the bcrypt hash of
"correct horse battery staple" both compare "ok" against that secret. -/
theorem hash_then_compare_ok_witness :
    (doScrypt Sample.env Sample.secret []).1 = (Sample.scryptString, none) ∧
    (doBcrypt Sample.env Sample.secret []).1 = (Sample.bcryptOut, none) ∧
    (compareAction Sample.env ⟨[], true, [Sample.scryptString, Sample.secret]⟩ []).1 = none ∧
    (compareAction Sample.env ⟨[], true, [Sample.bcryptOut, Sample.secret]⟩ []).1 = none :=
  ⟨rfl, rfl,
    (hash_then_compare_ok Sample.env ⟨[], true, [Sample.scryptString, Sample.secret]⟩
      Sample.secret Sample.scryptString
      (Or.inl ⟨rfl, Sample.scryptCodec_secret, Sample.scryptKeyLength_secret⟩)
      (Or.inr ⟨Sample.secret, rfl, rfl, rfl⟩)).1,
    (hash_then_compare_ok Sample.env ⟨[], true, [Sample.bcryptOut, Sample.secret]⟩
      Sample.secret Sample.bcryptOut
      (Or.inr ⟨rfl, Sample.bcryptCodec_secret, Sample.bcryptVerifies_secret⟩)
      (Or.inr ⟨Sample.secret, rfl, rfl, rfl⟩)).1⟩

/-- C2 at the sample environment: the stored key of the sample scrypt hash and the key
derived from the other secret differ, so the comparison does not report a match. -/
theorem compare_scrypt_rederives_witness :
    Sample.env.phcDecode Sample.scryptString =
        .ok (lit "scrypt", lit "N=32768,r=8,p=1", Sample.salt, Sample.key) ∧
      Sample.key ≠ Sample.otherKey ∧
      (compareAction Sample.env ⟨[], true, [Sample.scryptString, Sample.other]⟩ []).1 =
        some (Error.New "fail") :=
  ⟨by decide, by decide,
    (compare_scrypt_rederives Sample.env ⟨[], true, [Sample.scryptString, Sample.other]⟩
      Sample.scryptString Sample.other (lit "scrypt") (lit "N=32768,r=8,p=1") Sample.salt
      Sample.key Sample.parsed Sample.otherKey (Or.inr ⟨Sample.other, rfl, rfl, rfl⟩)
      (by decide) (by decide) (by decide) (by decide) (by decide)).2.2.1 (by decide)⟩

/-- C3 at the sample environment: the hashes of "correct horse battery staple" do not
match "Correct Horse Battery Staple". -/
theorem wrong_secret_fails_witness :
    Sample.secret ≠ Sample.other ∧
    (compareAction Sample.env ⟨[], true, [Sample.scryptString, Sample.other]⟩ []).1 =
      some (Error.New "fail") ∧
    (compareAction Sample.env ⟨[], true, [Sample.bcryptOut, Sample.other]⟩ []).1 =
      some (Error.New "fail") :=
  ⟨by decide,
    (wrong_secret_fails Sample.env ⟨[], true, [Sample.scryptString, Sample.other]⟩
      Sample.secret Sample.other Sample.scryptString (by decide)
      (Or.inl ⟨rfl, Sample.scryptCodec_secret, Sample.scryptNoCollision_secret⟩)
      (Or.inr ⟨Sample.other, rfl, rfl, rfl⟩)).1,
    (wrong_secret_fails Sample.env ⟨[], true, [Sample.bcryptOut, Sample.other]⟩
      Sample.secret Sample.other Sample.bcryptOut (by decide)
      (Or.inr ⟨rfl, Sample.bcryptCodec_secret, Sample.bcryptNoCollision_secret⟩)
      (Or.inr ⟨Sample.other, rfl, rfl, rfl⟩)).1⟩

/-- C4 at the sample environment: a completed comparison without a match returns
"fail". -/
theorem compare_exit_status_witness :
    (compareAction Sample.env ⟨[], true, [Sample.bcryptOut, Sample.other]⟩ []).1 =
      some (Error.New "fail") :=
  (compare_exit_status Sample.env ⟨[], true, [Sample.bcryptOut, Sample.other]⟩).2.1
    ⟨Sample.bcryptOut, Sample.other, Sample.bcryptId, [], [], Sample.bcryptOut,
      Or.inr ⟨Sample.other, rfl, rfl, rfl⟩, by decide, Or.inl ⟨rfl, by decide⟩⟩

/-- C6 as amended, at the sample environment.  Without the insecure flag a secret given
as an argument is refused by both actions; with the flag, `hashAction` derives from the
argument and prints the hash, and `compareAction` derives from the argument and reports
the match. -/
theorem insecure_argument_gate_witness :
    hashAction Sample.env ⟨lit "bcrypt", false, [Sample.secret]⟩ [] =
        (some (Error.InsecureArgument "INPUT"), []) ∧
      compareAction Sample.env ⟨[], false, [Sample.scryptString, Sample.secret]⟩ [] =
        (some (Error.InsecureArgument "INPUT"), []) ∧
      hashAction Sample.env ⟨lit "scrypt", true, [Sample.secret]⟩ [] =
        (none, [Event.phcGetSalt 16,
          Event.scryptKey Sample.secret Sample.salt 32768 8 1 32,
          Event.Println Sample.scryptString]) ∧
      hashAction Sample.env ⟨lit "bcrypt", true, [Sample.secret]⟩ [] =
        (none, [Event.bcryptGenerateFromPassword Sample.secret 10,
          Event.Println Sample.bcryptOut]) ∧
      compareAction Sample.env ⟨[], true, [Sample.scryptString, Sample.secret]⟩ [] =
        (none, [Event.phcDecode Sample.scryptString,
          Event.scryptKey Sample.secret Sample.salt 32768 8 1 32,
          Event.Println (lit "ok")]) ∧
      compareAction Sample.env ⟨[], true, [Sample.bcryptOut, Sample.other]⟩ [] =
        (some (Error.New "fail"), [Event.phcDecode Sample.bcryptOut,
          Event.bcryptCompareHashAndPassword Sample.bcryptOut Sample.other]) :=
  ⟨((insecure_argument_gate Sample.env ⟨lit "bcrypt", false, [Sample.secret]⟩
      Sample.secret).1 rfl rfl).trans rfl,
    (insecure_argument_gate Sample.env ⟨[], false, [Sample.scryptString, Sample.secret]⟩
      Sample.secret).2.1 Sample.scryptString rfl rfl,
    (((insecure_argument_gate Sample.env ⟨lit "scrypt", true, [Sample.secret]⟩
      Sample.secret).2.2.1 rfl rfl).1 rfl).1.trans rfl,
    (((insecure_argument_gate Sample.env ⟨lit "bcrypt", true, [Sample.secret]⟩
      Sample.secret).2.2.1 rfl rfl).2.1 rfl).1.trans rfl,
    ((((insecure_argument_gate Sample.env ⟨[], true, [Sample.scryptString, Sample.secret]⟩
      Sample.secret).2.2.2 Sample.scryptString rfl rfl).2.2 (lit "scrypt")
      (lit "N=32768,r=8,p=1") Sample.salt Sample.key (by decide)).2 (by decide) (by decide)
      Sample.parsed (by decide)).trans rfl,
    ((((insecure_argument_gate Sample.env ⟨[], true, [Sample.bcryptOut, Sample.other]⟩
      Sample.other).2.2.2 Sample.bcryptOut rfl rfl).2.2 Sample.bcryptId [] []
      Sample.bcryptOut (by decide)).1 rfl).trans rfl⟩

/-- C7 at the sample environment: "not-a-valid-hash" does not decode, and the decoder's
error comes back wrapped. -/
theorem decode_error_wrapped_witness :
    Sample.env.phcDecode (lit "not-a-valid-hash") =
        .error (Error.New "cannot decode password hash") ∧
      compareAction Sample.env ⟨[], true, [lit "not-a-valid-hash", Sample.secret]⟩ [] =
        (some (Error.Wrap (Error.New "cannot decode password hash") "error decoding hash"),
          readTrace ⟨[], true, [lit "not-a-valid-hash", Sample.secret]⟩ ++
            [Event.phcDecode (lit "not-a-valid-hash")]) :=
  ⟨by decide,
    (decode_error_wrapped Sample.env ⟨[], true, [lit "not-a-valid-hash", Sample.secret]⟩
      (lit "not-a-valid-hash") Sample.secret (Error.New "cannot decode password hash")
      (Or.inr ⟨Sample.secret, rfl, rfl, rfl⟩) (by decide)).1⟩

/-- C8 at the sample environment. -/
theorem doScrypt_fixed_parameters_witness :
    Sample.env.phcGetSalt 16 = .ok Sample.salt ∧
      doScrypt Sample.env Sample.secret [] =
        ((Sample.scryptString, none),
          [Event.phcGetSalt 16, Event.scryptKey Sample.secret Sample.salt 32768 8 1 32]) :=
  ⟨by decide,
    (doScrypt_fixed_parameters Sample.env ⟨lit "scrypt", true, [Sample.secret]⟩
      Sample.secret Sample.salt Sample.key (by decide) (by decide)).1⟩

/-- C9 at the sample environment. -/
theorem doBcrypt_native_output_witness :
    Sample.env.bcryptGenerateFromPassword Sample.secret 10 = .ok Sample.bcryptOut ∧
      doBcrypt Sample.env Sample.secret [] =
        ((Sample.bcryptOut, none), [Event.bcryptGenerateFromPassword Sample.secret 10]) :=
  ⟨by decide, (doBcrypt_native_output Sample.env Sample.secret Sample.bcryptOut
    (by decide)).1⟩

/-- C10 at a sample environment whose derivation primitives fail. -/
theorem derivation_error_fatal_witness :
    (hashAction Sample.failing ⟨lit "scrypt", true, [Sample.secret]⟩ []).1 =
        some (Error.Wrap (Error.New "scrypt: out of memory") "error deriving password") ∧
      (hashAction Sample.failing ⟨lit "bcrypt", false, []⟩ []).1 =
        some (Error.Wrap (Error.New "bcrypt: no entropy") "error deriving password") :=
  ⟨(derivation_error_fatal Sample.failing ⟨lit "scrypt", true, [Sample.secret]⟩
      Sample.secret (Error.New "scrypt: out of memory")
      (Or.inr ⟨Sample.secret, rfl, rfl, rfl⟩)
      (Or.inl ⟨rfl, Sample.salt, by decide, by decide⟩)).2.2.1,
    (derivation_error_fatal Sample.failing ⟨lit "bcrypt", false, []⟩
      (lit "hunter2") (Error.New "bcrypt: no entropy")
      (Or.inl ⟨rfl, by decide⟩) (Or.inr ⟨rfl, by decide⟩)).2.2.1⟩

/-! ## Standard output of `compareAction`, and stored keys of length zero -/

theorem stdoutLines_append (a b : Trace) :
    stdoutLines (a ++ b) = stdoutLines a ++ stdoutLines b := by
  induction a with
  | nil => rfl
  | cons e rest ih => cases e <;> simp [stdoutLines, ih]

theorem stdoutLines_readTrace (ctx : Context) : stdoutLines (readTrace ctx) = [] := by
  unfold readTrace
  split <;> rfl

theorem compareAction_stdout_supplied (env : Env) (ctx : Context) (hashStr : GoString)
    (input : Bytes) (hsup : Supplies env ctx hashStr input) :
    stdoutLines (compareAction env ctx []).2 =
      if (compareAction env ctx []).1 = none then [lit "ok"] else [] := by
  cases hdec : env.phcDecode hashStr with
  | error err =>
    rw [compareAction_decode_error env ctx hashStr input err hsup hdec]
    simp [stdoutLines_append, stdoutLines_readTrace, stdoutLines]
  | ok val =>
    obtain ⟨id, params, salt, hash⟩ := val
    by_cases hb : id = env.bcryptHash
    · rw [compareAction_bcrypt env ctx hashStr input id params salt hash hsup hdec hb]
      split <;> simp [stdoutLines_append, stdoutLines_readTrace, stdoutLines]
    · by_cases hs : id = env.scryptHash
      · cases hp : env.newScryptParams params with
        | error err =>
          rw [compareAction_params_error env ctx hashStr input id params salt hash err hsup
            hdec hb hs hp]
          simp [stdoutLines_append, stdoutLines_readTrace, stdoutLines]
        | ok p =>
          cases hk : env.scryptKey input salt p.N p.r p.p (hash.length : Int) with
          | error err =>
            rw [compareAction_derive_error env ctx hashStr input id params salt hash p err
              hsup hdec hb hs hp hk]
            simp [stdoutLines_append, stdoutLines_readTrace, stdoutLines]
          | ok hashedPass =>
            rw [compareAction_scrypt env ctx hashStr input id params salt hash p hashedPass
              hsup hdec hb hs hp hk]
            split <;> simp [stdoutLines_append, stdoutLines_readTrace, stdoutLines]
      · rw [compareAction_unknown_id env ctx hashStr input id params salt hash hsup hdec
          hb hs]
        simp [stdoutLines_append, stdoutLines_readTrace, stdoutLines]

/-- C11, what the code does: in every run of `compareAction` the lines on standard output
are exactly the line "ok" when the action returns no error, and none otherwise; so the
success message goes to standard output.  The second part evaluates the run
`compare --insecure HASH SECRET` on the sample scrypt hash of its own secret: the action
returns no error and its only output is the `fmt.Println` of "ok". -/
theorem compare_success_on_stdout :
    (∀ (env : Env) (ctx : Context),
      stdoutLines (compareAction env ctx []).2 =
        if (compareAction env ctx []).1 = none then [lit "ok"] else []) ∧
    compareAction Sample.env ⟨[], true, [Sample.scryptString, Sample.secret]⟩ [] =
      (none, [Event.phcDecode Sample.scryptString,
        Event.scryptKey Sample.secret Sample.salt 32768 8 1 32,
        Event.Println (lit "ok")]) ∧
    stdoutLines
      (compareAction Sample.env ⟨[], true, [Sample.scryptString, Sample.secret]⟩ []).2 =
        [lit "ok"] := by
  refine ⟨fun env ctx => ?_, by decide, by decide⟩
  rcases hargs : ctx.args with _ | ⟨h, _ | ⟨a, _ | ⟨b, rest⟩⟩⟩
  · rw [compareAction_no_args env ctx (by simp [Context.NArg, hargs])]
    simp [stdoutLines]
  · cases hr : env.readInput "Enter password to compare: " with
    | error err =>
      rw [compareAction_read_error env ctx err (by simp [Context.NArg, hargs]) hr]
      simp [stdoutLines]
    | ok input => exact compareAction_stdout_supplied env ctx h input (Or.inl ⟨hargs, hr⟩)
  · cases hi : ctx.insecure with
    | false =>
      rw [compareAction_insecure env ctx (by simp [Context.NArg, hargs]) hi]
      simp [stdoutLines]
    | true =>
      exact compareAction_stdout_supplied env ctx h (toBytes a) (Or.inr ⟨a, hargs, hi, rfl⟩)
  · rw [compareAction_too_many env ctx (by simp [Context.NArg, hargs])]
    simp [stdoutLines]

/-- C13: for a decoded hash with the scrypt id (distinct from the bcrypt id), parameters
that parse and a stored key of length zero, `compareAction` asks `scrypt.Key` for a key
of length 0 and, for any two candidates on which the derivation succeeds with a key of
the requested length, returns no error and prints "ok" for both: the verdict does not
depend on the candidate. -/
theorem empty_key_matches_every_candidate (env : Env) (ctx1 ctx2 : Context)
    (hashStr : GoString) (input1 input2 : Bytes) (id params : GoString) (salt hash : Bytes)
    (p : ScryptParams) (key1 key2 : Bytes)
    (hsup1 : Supplies env ctx1 hashStr input1) (hsup2 : Supplies env ctx2 hashStr input2)
    (hdec : env.phcDecode hashStr = .ok (id, params, salt, hash))
    (hzero : hash.length = 0)
    (hid : id = env.scryptHash) (hnb : env.scryptHash ≠ env.bcryptHash)
    (hp : env.newScryptParams params = .ok p)
    (hk1 : env.scryptKey input1 salt p.N p.r p.p 0 = .ok key1) (hl1 : key1.length = 0)
    (hk2 : env.scryptKey input2 salt p.N p.r p.p 0 = .ok key2) (hl2 : key2.length = 0) :
    compareAction env ctx1 [] =
        (none, readTrace ctx1 ++ [Event.phcDecode hashStr,
          Event.scryptKey input1 salt p.N p.r p.p 0, Event.Println (lit "ok")]) ∧
      compareAction env ctx2 [] =
        (none, readTrace ctx2 ++ [Event.phcDecode hashStr,
          Event.scryptKey input2 salt p.N p.r p.p 0, Event.Println (lit "ok")]) := by
  have hnb2 : id ≠ env.bcryptHash := by rw [hid]; exact hnb
  have hh : hash = [] := List.length_eq_zero.1 hzero
  subst hh
  have e1 : key1 = [] := List.length_eq_zero.1 hl1
  have e2 : key2 = [] := List.length_eq_zero.1 hl2
  subst e1 e2
  have r1 := compareAction_scrypt env ctx1 hashStr input1 id params salt [] p [] hsup1 hdec
    hnb2 hid hp (by simpa using hk1)
  have r2 := compareAction_scrypt env ctx2 hashStr input2 id params salt [] p [] hsup2 hdec
    hnb2 hid hp (by simpa using hk2)
  rw [if_pos rfl] at r1 r2
  exact ⟨by simpa using r1, by simpa using r2⟩

/-- C13 at the sample environment: a scrypt hash string with an empty key field matches
two different secrets. -/
theorem empty_key_matches_every_candidate_witness :
    Sample.env.phcDecode Sample.emptyKeyString =
        .ok (lit "scrypt", lit "N=32768,r=8,p=1", Sample.salt, []) ∧
      Sample.secret ≠ lit "hunter2" ∧
      (compareAction Sample.env ⟨[], true, [Sample.emptyKeyString, Sample.secret]⟩ []).1 =
        none ∧
      (compareAction Sample.env ⟨[], false, [Sample.emptyKeyString]⟩ []).1 = none :=
  have key := empty_key_matches_every_candidate Sample.env
    ⟨[], true, [Sample.emptyKeyString, Sample.secret]⟩ ⟨[], false, [Sample.emptyKeyString]⟩
    Sample.emptyKeyString Sample.secret (lit "hunter2") (lit "scrypt")
    (lit "N=32768,r=8,p=1") Sample.salt [] Sample.parsed [] []
    (Or.inr ⟨Sample.secret, rfl, rfl, rfl⟩) (Or.inl ⟨rfl, by decide⟩)
    (by decide) rfl (by decide) (by decide) (by decide) (by decide) rfl (by decide) rfl
  ⟨by decide, by decide, by rw [key.1], by rw [key.2]⟩

end Kdf

namespace Jwt

open Kdf (Bytes GoString lit)

/-! ## The recommended-claims gate of `signAction` -/

theorem signAction_accepted (env : Env) (ctx : Context) (payload : Payload)
    (jwk : JSONWebKey) (w : Trace) (hacc : KeyAccepted env ctx payload jwk w) :
    signAction env ctx [] = signClaims env ctx payload jwk w := by
  obtain ⟨wp, ev, hpay, hkey, hpub, huse, halg, hval, rfl⟩ := hacc
  have huse2 : ¬ (jwk.Use ≠ lit "sig" ∧ jwk.Use ≠ lit "") := by
    rintro ⟨h1, h2⟩
    rcases huse with h | h
    · exact h1 h
    · exact h2 h
  rcases hpay with ⟨hargs, rfl, rfl⟩ | ⟨filename, hargs, hread⟩
  · rcases hkey with ⟨hk, hj, hparse, rfl⟩ | ⟨hk, hj, hkid, hparse, rfl⟩
    · simp [signAction, hargs, hk, hj, hparse, jose.ParseKey, hpub, huse2, halg,
        jose.ValidateJWK, hval]
    · simp [signAction, hargs, hk, hj, hparse, jose.ParseKeySet, hpub, huse2, halg,
        jose.ValidateJWK, hval, hkid]
  · rcases hkey with ⟨hk, hj, hparse, rfl⟩ | ⟨hk, hj, hkid, hparse, rfl⟩
    · simp [signAction, hargs, hk, hj, hparse, jose.ParseKey, hpub, huse2, halg,
        jose.ValidateJWK, hval, hread]
    · simp [signAction, hargs, hk, hj, hparse, jose.ParseKeySet, hpub, huse2, halg,
        jose.ValidateJWK, hval, hread, hkid]

theorem acceptedTrace_events (env : Env) (ctx : Context) (payload : Payload)
    (jwk : JSONWebKey) (w : Trace) (hacc : KeyAccepted env ctx payload jwk w) :
    nowCalls w = 0 ∧ ∀ e ∈ w, e.isSigning = false ∧ e.isPrint = false := by
  obtain ⟨wp, ev, hpay, hkey, -, -, -, -, rfl⟩ := hacc
  have hev : ev ≠ Event.Now ∧ ev.isSigning = false ∧ ev.isPrint = false := by
    rcases hkey with ⟨-, -, -, rfl⟩ | ⟨-, -, -, -, rfl⟩ <;> exact ⟨by simp, rfl, rfl⟩
  have hwp : nowCalls wp = 0 ∧ ∀ e ∈ wp, e.isSigning = false ∧ e.isPrint = false := by
    rcases hpay with ⟨-, -, rfl⟩ | ⟨filename, -, hread⟩
    · exact ⟨rfl, by simp⟩
    · unfold readPayload at hread
      split at hread
      · simp only [json.DecodeStdin] at hread
        cases hd : env.decodeStdin with
        | error err => rw [hd] at hread; simp at hread
        | ok v =>
          rw [hd] at hread
          simp only [Prod.mk.injEq] at hread
          rw [← hread.2]
          exact ⟨by decide, by simp [Event.isSigning, Event.isPrint]⟩
      · simp only [ioutil.ReadFile] at hread
        cases hf : env.readFile filename with
        | error err => rw [hf] at hread; simp at hread
        | ok b =>
          rw [hf] at hread
          simp only [json.DecodeBytes] at hread
          cases hd : env.decodeBytes b with
          | error err => rw [hd] at hread; simp at hread
          | ok v =>
            rw [hd] at hread
            simp only [Prod.mk.injEq] at hread
            rw [← hread.2]
            refine ⟨?_, ?_⟩
            · simp [nowCalls]
            · simp [Event.isSigning, Event.isPrint]
  refine ⟨?_, ?_⟩
  · have h1 := hwp.1
    unfold nowCalls at h1 ⊢
    rw [List.countP_append, h1]
    simp [List.countP_cons, hev.1]
  · intro e he
    rcases List.mem_append.1 he with h | h
    · exact hwp.2 e h
    · simp only [List.mem_cons, List.mem_singleton, List.not_mem_nil, or_false] at h
      rcases h with rfl | rfl
      · exact ⟨hev.2.1, hev.2.2⟩
      · exact ⟨rfl, rfl⟩

theorem nowCalls_snoc_now (w : Trace) : nowCalls (w ++ [Event.Now]) = nowCalls w + 1 := by
  simp [nowCalls, List.countP_append, List.countP_cons]

theorem nowCalls_snoc_randHex (w : Trace) (n : Int) :
    nowCalls (w ++ [Event.RandHex n]) = nowCalls w := by
  simp [nowCalls, List.countP_append, List.countP_cons]

theorem before_of_expired (exp : Int) (now : Time) (he : IsInt64 exp) (hn : IsInt64 now.sec)
    (hx : Expired exp now) : (NumericDate.Time exp).Before now = true := by
  unfold IsInt64 at he hn
  unfold Expired unixToInternal at hx
  simp only [NumericDate.Time, time.Unix, Time.Before, wrap64, unixToInternal,
    decide_eq_true_eq]
  omega

/-- With the subtle flag unset and one of the five conditions, `signClaims` returns an
error after at most two clock readings and one `RandHex` call. -/
theorem signClaims_unset (env : Env) (ctx : Context) (payload : Payload) (jwk : JSONWebKey)
    (w : Trace) (hnow : nowCalls w = 0)
    (hsub : ctx.subtle = false)
    (h64 : IsInt64 ctx.exp ∧ IsInt64 (env.timeNow 1).sec)
    (hcond : ctx.iss.length = 0 ∨ ctx.aud.length = 0 ∨ ctx.sub.length = 0 ∨ ctx.exp = 0 ∨
      Expired ctx.exp (env.timeNow 1)) :
    (signClaims env ctx payload jwk w).1 ≠ none ∧
      ∃ t, (signClaims env ctx payload jwk w).2 = w ++ t ∧
        ∀ e ∈ t, e = Event.Now ∨ e = Event.RandHex 40 := by
  have hbefore : Expired ctx.exp (env.timeNow 1) →
      (NumericDate.Time ctx.exp).Before (env.timeNow 1) = true :=
    before_of_expired ctx.exp (env.timeNow 1) h64.1 h64.2
  have hn1 : nowCalls (w ++ [Event.Now]) = 1 := by rw [nowCalls_snoc_now, hnow]
  have hn2 : nowCalls (w ++ [Event.Now, Event.RandHex 40]) = 1 := by
    have := nowCalls_snoc_randHex (w ++ [Event.Now]) 40
    rw [hn1] at this
    simpa using this
  have close : ∀ (err : Error) (t : Trace),
      (∀ e ∈ t, e = Event.Now ∨ e = Event.RandHex 40) →
      signClaims env ctx payload jwk w = (some err, w ++ t) →
      (signClaims env ctx payload jwk w).1 ≠ none ∧
        ∃ t, (signClaims env ctx payload jwk w).2 = w ++ t ∧
          ∀ e ∈ t, e = Event.Now ∨ e = Event.RandHex 40 := by
    intro err t ht hres
    rw [hres]
    exact ⟨by simp, t, rfl, ht⟩
  by_cases hj : ctx.jti = lit "" ∧ ctx.jtiIsSet = true
  · cases hr : env.randHex 40 with
    | error err =>
      exact close (Error.Wrap err "error creating random jti") [Event.Now, Event.RandHex 40]
        (by simp) (by simp [signClaims, time.Now, utils.RandHex, hj, hr])
    | ok id =>
      by_cases h1 : ctx.iss.length = 0
      · exact close (Error.New "flag '--iss' is required unless '--subtle' is used")
          [Event.Now, Event.RandHex 40] (by simp)
          (by simp [signClaims, time.Now, utils.RandHex, hj, hr, hsub, h1])
      by_cases h2 : ctx.aud.length = 0
      · exact close (Error.New "flag '--aud' is required unless '--subtle' is used")
          [Event.Now, Event.RandHex 40] (by simp)
          (by simp [signClaims, time.Now, utils.RandHex, hj, hr, hsub, h1, h2])
      by_cases h3 : ctx.sub.length = 0
      · exact close (Error.New "flag '--sub' is required unless '--subtle' is used")
          [Event.Now, Event.RandHex 40] (by simp)
          (by simp [signClaims, time.Now, utils.RandHex, hj, hr, hsub, h1, h2, h3])
      by_cases h4 : ctx.exp = 0
      · exact close (Error.New "flag '--exp' is required unless '--subtle' is used")
          [Event.Now, Event.RandHex 40] (by simp)
          (by simp [signClaims, time.Now, utils.RandHex, hj, hr, hsub, h1, h2, h3, h4])
      have h5 : (NumericDate.Time ctx.exp).Before (env.timeNow 1) = true := by
        rcases hcond with h | h | h | h | h
        · exact absurd h h1
        · exact absurd h h2
        · exact absurd h h3
        · exact absurd h h4
        · exact hbefore h
      exact close (Error.New "flag '--exp' must be in the future unless '--subtle' is used")
          [Event.Now, Event.RandHex 40, Event.Now] (by simp)
        (by simp [signClaims, time.Now, utils.RandHex, hj, hr, hsub, h1, h2, h3, h4, hn2,
          h5])
  · by_cases h1 : ctx.iss.length = 0
    · exact close (Error.New "flag '--iss' is required unless '--subtle' is used")
          [Event.Now] (by simp)
        (by simp [signClaims, time.Now, hj, hsub, h1])
    by_cases h2 : ctx.aud.length = 0
    · exact close (Error.New "flag '--aud' is required unless '--subtle' is used")
          [Event.Now] (by simp)
        (by simp [signClaims, time.Now, hj, hsub, h1, h2])
    by_cases h3 : ctx.sub.length = 0
    · exact close (Error.New "flag '--sub' is required unless '--subtle' is used")
          [Event.Now] (by simp)
        (by simp [signClaims, time.Now, hj, hsub, h1, h2, h3])
    by_cases h4 : ctx.exp = 0
    · exact close (Error.New "flag '--exp' is required unless '--subtle' is used")
          [Event.Now] (by simp)
        (by simp [signClaims, time.Now, hj, hsub, h1, h2, h3, h4])
    have h5 : (NumericDate.Time ctx.exp).Before (env.timeNow 1) = true := by
      rcases hcond with h | h | h | h | h
      · exact absurd h h1
      · exact absurd h h2
      · exact absurd h h3
      · exact absurd h h4
      · exact hbefore h
    exact close (Error.New "flag '--exp' must be in the future unless '--subtle' is used")
          [Event.Now, Event.Now] (by simp)
      (by simp [signClaims, time.Now, hj, hsub, h1, h2, h3, h4, hn1, h5])

/-- With the subtle flag set, the only errors `signClaims` returns are those of
`utils.RandHex`, `jose.NewSigner` and the serialisation, wrapped. -/
theorem signClaims_subtle (env : Env) (ctx : Context) (payload : Payload) (jwk : JSONWebKey)
    (w : Trace) (hsub : ctx.subtle = true) :
    (signClaims env ctx payload jwk w).1 = none ∨
      ∃ err, (signClaims env ctx payload jwk w).1 =
          some (Error.Wrap err "error creating random jti") ∨
        (signClaims env ctx payload jwk w).1 =
          some (Error.Wrapf err "error creating JWT signer" []) ∨
        (signClaims env ctx payload jwk w).1 =
          some (Error.Wrapf err "error serializing JWT" []) := by
  unfold signClaims time.Now utils.RandHex jose.NewSigner jose.CompactSerialize
  by_cases hj : ctx.jti = lit "" ∧ ctx.jtiIsSet = true
  · cases hr : env.randHex 40 with
    | error err => exact Or.inr ⟨err, Or.inl (by simp [hj, hr])⟩
    | ok id =>
      simp only [hsub, hj, hr, and_self, if_true, Bool.not_true, Bool.false_eq_true,
        if_false]
      split
      · rename_i err w7 hs
        exact Or.inr ⟨err, Or.inr (Or.inl rfl)⟩
      · rename_i signer w7 hs
        split
        · rename_i err w8 hc
          exact Or.inr ⟨err, Or.inr (Or.inr rfl)⟩
        · exact Or.inl rfl
  · simp only [hsub, hj, Bool.not_true, Bool.false_eq_true, if_false]
    split
    · rename_i err w7 hs
      exact Or.inr ⟨err, Or.inr (Or.inl rfl)⟩
    · rename_i signer w7 hs
      split
      · rename_i err w8 hc
        exact Or.inr ⟨err, Or.inr (Or.inr rfl)⟩
      · exact Or.inl rfl

end Jwt
